import Mathlib

/-!
Verification development for the MPF switch controller
(src/mpf/core/switch_controller.py).

Shallow embedding conventions:
* Clock readings are exact rationals (seconds).  Each controller entry point
  receives the current clock reading `now : Time` explicitly; within one call
  every `clock.get_time()` in the source observes the same reading (the
  dispatcher is single-threaded and runs to completion).
* Python callables are identified by opaque tokens (`CB := Nat`), mirroring
  object identity: `functools.partial` objects compare by identity, so two
  distinct partials are distinct tokens.  Invoking a callback is recorded in a
  trace rather than executed, except in the timed-queue drain, which is
  parameterised by the insertions each callback performs.
* Python dictionaries are association lists in key-insertion order;
  `defaultdict(list)` appends a fresh `(key, [])` pair on first write.
  The case-insensitive normalisation of `CaseInsensitiveDict` is orthogonal to
  every claim (all keys are used verbatim) and is not modelled.
* Indexing a dict that may lack the key (`self.switches[name]`,
  `self.registered_switches[entry_key]`) is fallible: such operations return
  `Option`, `none` standing for the `KeyError` path.
-/

abbrev Time := ℚ
abbrev CB := ℕ

/-- Python 3 `round(q, 0)`: round half to even (banker's rounding), on the
exact rational value. -/
def pythonRound (q : ℚ) : ℤ :=
  let f : ℤ := ⌊q⌋
  let r : ℚ := q - f
  if r < 1/2 then f
  else if 1/2 < r then f + 1
  else if f % 2 = 0 then f else f + 1

/-- Rounding as the spec's words describe it: half away from zero. -/
def specRound (q : ℚ) : ℤ :=
  if 0 ≤ q then ⌊q + 1/2⌋ else -⌊-q + 1/2⌋

section Dict

variable {κ : Type} {α : Type} [BEq κ]

/-- `d[k]` as an option (association-list lookup, first binding wins). -/
def lookupD (d : List (κ × α)) (k : κ) : Option α :=
  match d.find? (fun p => p.1 == k) with
  | some p => some p.2
  | none => none

/-- `d[k] = v`: overwrite the binding if present, else append a new one
(Python dicts preserve insertion order). -/
def setD (d : List (κ × α)) (k : κ) (v : α) : List (κ × α) :=
  if (d.find? (fun p => p.1 == k)).isSome then
    d.map (fun p => if p.1 == k then (k, v) else p)
  else d ++ [(k, v)]

/-- `defaultdict(list)`: `d[k].append(v)`. -/
def appendD (d : List (κ × List α)) (k : κ) (v : α) : List (κ × List α) :=
  match lookupD d k with
  | some l => setD d k (l ++ [v])
  | none => d ++ [(k, [v])]

/-- `del d[k]`. -/
def delD (d : List (κ × α)) (k : κ) : List (κ × α) :=
  d.filter (fun p => !(p.1 == k))

end Dict

/-- Remove the first element satisfying `p` (Python `list.remove(x)`, where at
the call sites every element equal to `x` is exactly an element satisfying the
match predicate, namedtuples comparing componentwise). -/
def eraseFirstP {α : Type} (p : α → Bool) : List α → List α
  | [] => []
  | x :: xs => if p x then xs else x :: eraseFirstP p xs

/-- Fuel-indexed embedding of the source pattern

    for i, x in enumerate(live):
        if p(x): live.remove(x)

`enumerate` walks the live list by increasing index, so after a removal the
element that slides into the current slot is skipped.  The fuel only bounds
the iteration count (`i` grows each step while the list never grows), so
`fuel = length + 1` is always enough. -/
def pyRemoveLoopF {α : Type} : ℕ → (α → Bool) → List α → ℕ → List α
  | 0, _, l, _ => l
  | fuel + 1, p, l, i =>
    if h : i < l.length then
      if p (l.get ⟨i, h⟩) then pyRemoveLoopF fuel p (eraseFirstP p l) (i + 1)
      else pyRemoveLoopF fuel p l (i + 1)
    else l

def pyRemoveLoop {α : Type} (p : α → Bool) (l : List α) : List α :=
  pyRemoveLoopF (l.length + 1) p l 0

/-- Fuel-indexed embedding of the source pattern

    for i, x in enumerate(live):
        if p(x): del live[i]

(the deletion is by the current index, and the element sliding into slot `i`
is skipped). -/
def pyDelLoopF {α : Type} : ℕ → (α → Bool) → List α → ℕ → List α
  | 0, _, l, _ => l
  | fuel + 1, p, l, i =>
    if h : i < l.length then
      if p (l.get ⟨i, h⟩) then pyDelLoopF fuel p (l.eraseIdx i) (i + 1)
      else pyDelLoopF fuel p l (i + 1)
    else l

def pyDelLoop {α : Type} (p : α → Bool) (l : List α) : List α :=
  pyDelLoopF (l.length + 1) p l 0

/-! ## Data model (namedtuples and device fields used by the controller) -/

/-- `RegisteredSwitch = namedtuple("RegisteredSwitch", ["ms", "callback"])`. -/
structure RegisteredSwitch where
  ms : ℕ
  callback : CB
deriving DecidableEq, Repr

/-- `TimedSwitchHandler = namedtuple(..., ["callback", "switch_name", "state", "ms"])`. -/
structure TimedSwitchHandler where
  callback : CB
  switch_name : String
  state : ℕ
  ms : ℕ
deriving DecidableEq, Repr

/-- `SwitchState = namedtuple("SwitchState", ["state", "time"])`. -/
structure SwitchState where
  state : ℕ
  time : Time
deriving DecidableEq, Repr

/-- `SwitchHandler = namedtuple(..., ["switch_name", "callback", "state", "ms"])`,
the key returned by `add_switch_handler`. -/
structure SwitchHandler where
  switch_name : String
  callback : CB
  state : ℕ
  ms : ℕ
deriving DecidableEq, Repr

/-- The fields of `MonitoredSwitchChange` the claims speak about (label,
platform and hardware number are opaque pass-throughs of device fields). -/
structure MonitoredSwitchChange where
  name : String
  state : ℕ
deriving DecidableEq, Repr

/-- The switch device object (`mpf.devices.switch.Switch`), restricted to the
fields `process_switch_obj` reads and writes. -/
structure Switch where
  name : String
  invert : Bool
  state : ℕ
  hw_state : ℕ
  recycle_secs : Time
  recycle_clear_time : Time
  recycle_jitter_count : ℕ
deriving DecidableEq, Repr

/-- The mutable state of a `SwitchController`.  `timed_delay` is the handle
`_timed_switch_handler_delay` (represented by the absolute fire time of the
wake timer it refers to); `outstanding` is the multiset of wake timers that
have been passed to `clock.schedule_once` and neither unscheduled nor fired,
so that "at most one outstanding wake timer" is a provable statement rather
than a modelling assumption. -/
structure Controller where
  registered_switches : List (String × List RegisteredSwitch)
  active_timed_switches : List (Time × List TimedSwitchHandler)
  switches : List (String × SwitchState)
  monitors : List CB
  timed_delay : Option Time
  outstanding : List Time
deriving DecidableEq, Repr

/-- A pending recycle retry: `schedule_once(partial(self._recycle_passed, obj,
state, logical, obj.hw_state), timeout=obj.recycle_clear_time - now)` fires at
the absolute time `now + timeout = recycle_clear_time`. -/
structure Retry where
  fire_time : Time
  name : String
  state : ℕ
  logical : Bool
  hw_state : ℕ
deriving DecidableEq, Repr

/-- Result of one `process_switch_obj` call: the new controller and device
states plus the traces of immediately-invoked handler callbacks, monitor
notifications, and scheduled recycle retries. -/
structure ProcResult where
  ctrl : Controller
  sw : Switch
  fired : List CB
  monitored : List (CB × MonitoredSwitchChange)
  retries : List Retry
deriving DecidableEq, Repr

/-! ## State store and queries -/

/-- `set_state(switch_name, state, reset_time)` (switch_controller.py:190). -/
def set_state (c : Controller) (now : Time) (switch_name : String) (state : ℕ)
    (reset_time : Bool) : Controller :=
  let timestamp : Time := if reset_time then -100000 else now
  { c with switches := setD c.switches switch_name ⟨state, timestamp⟩ }

/-- `ms_since_change(switch_name)` (switch_controller.py:186); `none` is the
`KeyError` on an unknown switch. -/
def ms_since_change (c : Controller) (now : Time) (switch_name : String) : Option ℤ :=
  match lookupD c.switches switch_name with
  | some ss => some (pythonRound ((now - ss.time) * 1000))
  | none => none

/-- `is_state(switch_name, state, ms)` (switch_controller.py:143). -/
def is_state (c : Controller) (now : Time) (switch_name : String) (state : ℕ)
    (ms : ℕ) : Option Bool :=
  match lookupD c.switches switch_name, ms_since_change c now switch_name with
  | some ss, some m => some (ss.state == state && (ms : ℤ) ≤ m)
  | _, _ => none

/-! ## Timed-handler queue and the wake timer -/

/-- Earliest key of the timed queue: `min(self.active_timed_switches.keys())`
(switch_controller.py:564), `none` when the queue is empty (the source
asserts non-emptiness). -/
def minKeys (d : List (Time × List TimedSwitchHandler)) : Option Time :=
  match d.map (fun p => p.1) with
  | [] => none
  | t :: ts => some (ts.foldl min t)

/-- `self.machine.clock.unschedule(self._timed_switch_handler_delay)`. -/
def unscheduleDelay (c : Controller) : Controller :=
  match c.timed_delay with
  | some h => { c with outstanding := c.outstanding.erase h, timed_delay := none }
  | none => c

/-- `self._timed_switch_handler_delay = self.machine.clock.schedule_once(...)`
at absolute fire time `t`. -/
def scheduleDelay (c : Controller) (t : Time) : Controller :=
  { c with outstanding := c.outstanding ++ [t], timed_delay := some t }

/-- `_add_timed_switch_handler(time, timed_switch_handler)`
(switch_controller.py:384): append the pending, cancel the current wake timer
if any, and schedule a new one at `get_next_timed_switch_event() - now`, i.e.
at absolute time `min(keys)`. -/
def add_timed_switch_handler (c : Controller) (time : Time)
    (h : TimedSwitchHandler) : Controller :=
  let c1 := { c with active_timed_switches := appendD c.active_timed_switches time h }
  let c2 := if c1.timed_delay.isSome then unscheduleDelay c1 else c1
  scheduleDelay c2 ((minKeys c2.active_timed_switches).getD 0)

/-! ## Handler invocation and cancellation -/

/-- Inner loop of `_call_handlers` (switch_controller.py:399-421): iterate a
snapshot of the bucket, re-check that each entry is still in the live bucket,
then either invoke it now (`ms == 0`, recorded in the fired trace) or insert a
`TimedSwitchHandler` at deadline `now + ms/1000`. -/
def callHandlersLoop (now : Time) (name : String) (state : ℕ) (key : String) :
    Controller → List CB → List RegisteredSwitch → Controller × List CB
  | c, fired, [] => (c, fired)
  | c, fired, e :: rest =>
    let live := (lookupD c.registered_switches key).getD []
    if e ∈ live then
      if e.ms ≠ 0 then
        let c1 := add_timed_switch_handler c (now + (e.ms : ℚ) / 1000)
          ⟨e.callback, name, state, e.ms⟩
        callHandlersLoop now name state key c1 fired rest
      else
        callHandlersLoop now name state key c (fired ++ [e.callback]) rest
    else
      callHandlersLoop now name state key c fired rest

/-- `_call_handlers(name, state)` (switch_controller.py:393). -/
def call_handlers (c : Controller) (now : Time) (name : String) (state : ℕ) :
    Controller × List CB :=
  let switch_key := name ++ "-" ++ toString state
  match lookupD c.registered_switches switch_key with
  | some entries => callHandlersLoop now name state switch_key c [] entries
  | none => (c, [])

/-- `_cancel_timed_handlers(name, state)` (switch_controller.py:372): for each
bucket, run the delete-by-enumerate-index loop over pendings watching the
opposite state.  (The inner `if self.active_timed_switches[k] and
self.active_timed_switches[k][k2]` guard is always true: the element was just
fetched at that index and a namedtuple with fields is always truthy.) -/
def cancel_timed_handlers (c : Controller) (name : String) (state : ℕ) : Controller :=
  { c with active_timed_switches :=
      c.active_timed_switches.map (fun p =>
        (p.1, pyDelLoop
          (fun item => item.switch_name == name && item.state == state ^^^ 1) p.2)) }

/-! ## Handler registration and removal -/

/-- `add_switch_handler(switch_name, callback, state, ms)`
(switch_controller.py:434).  `callback` is already the effective closure (the
`return_info` / `callback_kwargs` wrapping only builds a new identity token).
`none` is the `KeyError` on an unregistered `"<name>-<state>"` bucket, or an
unknown switch name in the late-join query. -/
def add_switch_handler (c : Controller) (now : Time) (switch_name : String)
    (callback : CB) (state : ℕ) (ms : ℕ) : Option (Controller × SwitchHandler) :=
  let entry_key := switch_name ++ "-" ++ toString state
  let hkey : SwitchHandler := ⟨switch_name, callback, state, ms⟩
  match lookupD c.registered_switches entry_key with
  | none => none
  | some bucket =>
    let reg1 := setD c.registered_switches entry_key (bucket ++ [⟨ms, callback⟩])
    let c1 := { c with registered_switches := reg1 }
    if ms ≠ 0 then
      match lookupD c1.switches switch_name with
      | none => none
      | some ss =>
        let msc := pythonRound ((now - ss.time) * 1000)
        if msc < (ms : ℤ) then
          if (state == 1 && (ss.state == 1 && (0 : ℤ) ≤ msc)) ||
             (state == 0 && (ss.state == 0 && (0 : ℤ) ≤ msc)) then
            let key := now + ((ms : ℚ) - (msc : ℚ)) / 1000
            some (add_timed_switch_handler c1 key ⟨callback, switch_name, state, ms⟩, hkey)
          else some (c1, hkey)
        else some (c1, hkey)
    else some (c1, hkey)

/-- `remove_switch_handler(switch_name, callback, state, ms)`
(switch_controller.py:503): scan the `(switch_name, state)` registry bucket
with the enumerate-plus-`list.remove` loop, then scan every timed bucket with
the enumerate-plus-`del`-by-index loop. -/
def remove_switch_handler (c : Controller) (switch_name : String) (callback : CB)
    (state : ℕ) (ms : ℕ) : Controller :=
  let entry_key := switch_name ++ "-" ++ toString state
  let c1 :=
    match lookupD c.registered_switches entry_key with
    | some bucket =>
      let reg1 := setD c.registered_switches entry_key
        (pyRemoveLoop (fun s => s.ms == ms && s.callback == callback) bucket)
      { c with registered_switches := reg1 }
    | none => c
  { c1 with active_timed_switches :=
      c1.active_timed_switches.map (fun p =>
        (p.1, pyDelLoop
          (fun e => e.switch_name == switch_name && e.state == state &&
                    e.ms == ms && e.callback == callback) p.2)) }

/-- `remove_switch_handler_by_key(switch_handler)` (switch_controller.py:498). -/
def remove_switch_handler_by_key (c : Controller) (h : SwitchHandler) : Controller :=
  remove_switch_handler c h.switch_name h.callback h.state h.ms

/-! ## The dispatcher pipeline -/

/-- Lines 274-289 of `process_switch_obj`: coerce the incoming state to
`{0,1}` and apply the NC inversion, returning `(logical state, hw_state)`. -/
def logicalAndHw (invert : Bool) (logical : Bool) (state0 : ℕ) : ℕ × ℕ :=
  let state := if state0 ≠ 0 then 1 else 0
  let hw_state := if invert && logical then state ^^^ 1 else state
  let state := if invert && !logical then state ^^^ 1 else state
  (state, hw_state)

/-- `_check_recycle_time(switch, state)` (switch_controller.py:543); returns
the boolean result together with the (possibly jitter-incremented) device. -/
def check_recycle_time (now : Time) (sw : Switch) (state : ℕ) : Bool × Switch :=
  if sw.recycle_clear_time ≤ now then (true, sw)
  else
    (false,
     if state ≠ 0 then { sw with recycle_jitter_count := sw.recycle_jitter_count + 1 }
     else sw)

/-- Lines 323-332 of `process_switch_obj` (the tail of an accepted
transition): `set_state`, `_call_handlers`, `_cancel_timed_handlers`, in that
order, returning the controller and the immediately-fired callbacks. -/
def process_accepted (c : Controller) (now : Time) (name : String) (state : ℕ) :
    Controller × List CB :=
  let c1 := set_state c now name state false
  let cf := call_handlers c1 now name state
  (cancel_timed_handlers cf.1 name state, cf.2)

/-- `process_switch_obj(obj, state, logical)` (switch_controller.py:248).
`none` is the `KeyError` when the switch name is missing from the state
store. -/
def process_switch_obj (c : Controller) (now : Time) (sw : Switch) (state0 : ℕ)
    (logical : Bool) : Option ProcResult :=
  let sh := logicalAndHw sw.invert logical state0
  let state := sh.1
  let sw1 := { sw with hw_state := sh.2 }
  let gate := if state ≠ 0 then check_recycle_time now sw1 state else (true, sw1)
  if gate.1 = false then
    some ⟨c, gate.2, [], [],
      [⟨gate.2.recycle_clear_time, gate.2.name, state, logical, gate.2.hw_state⟩]⟩
  else
    let sw2 := { gate.2 with state := state }
    let sw3 :=
      if state ≠ 0 then { sw2 with recycle_clear_time := now + sw2.recycle_secs }
      else sw2
    match lookupD c.switches sw3.name with
    | none => none
    | some ss =>
      if ss.state = state then
        some ⟨c, sw3, [], [], []⟩
      else
        let pa := process_accepted c now sw3.name state
        some ⟨pa.1, sw3, pa.2,
          pa.1.monitors.map (fun m => (m, ⟨sw3.name, state⟩)), []⟩

/-- `_recycle_passed(obj, state, logical, hw_state)` (switch_controller.py:334):
re-dispatch only if the device's physical state still matches the captured
one.  (`process_switch(obj.name, ...)` resolves the name back to the same
device object.) -/
def recycle_passed (c : Controller) (now : Time) (sw : Switch) (state : ℕ)
    (logical : Bool) (hw_state : ℕ) : Option ProcResult :=
  if sw.hw_state = hw_state then process_switch_obj c now sw state logical
  else some ⟨c, sw, [], [], []⟩

/-! ## Wait primitive -/

/-- One wait result, the dict `{"switch_name": ..., "state": ..., "ms": ...}`. -/
structure WaitResult where
  switch_name : String
  state : ℕ
  ms : ℕ
deriving DecidableEq, Repr

/-- An `asyncio.Future` restricted to what the wait primitive uses: `done`
covers both resolution and cancellation; `result` is set on resolution. -/
structure Future where
  result : Option WaitResult
  done : Bool
deriving DecidableEq, Repr

/-- `_wait_handler` (switch_controller.py:367): resolve the future with its
triggering parameters unless it is already done. -/
def wait_handler (f : Future) (v : WaitResult) : Future :=
  if f.done then f else { result := some v, done := true }

/-- `_future_done(handlers, future)` (switch_controller.py:362): the future's
completion callback removes every transient handler by key. -/
def future_done (hs : List SwitchHandler) (c : Controller) : Controller :=
  hs.foldl (fun c h => remove_switch_handler_by_key c h) c

/-- The `only_on_change=False` pre-scan of `wait_for_any_switch` (lines
346-350): first listed switch already satisfying `is_state`.  `some none` =
no switch satisfies; outer `none` = `KeyError` on an unknown switch. -/
def firstSatisfied (c : Controller) (now : Time) (state : ℕ) (ms : ℕ) :
    List String → Option (Option String)
  | [] => some none
  | n :: ns =>
    match is_state c now n state ms with
    | none => none
    | some true => some (some n)
    | some false => firstSatisfied c now state ms ns

/-- The registration loop of `wait_for_any_switch` (lines 354-359): one
transient handler per listed switch; `cbs` are the identity tokens of the
per-switch `partial(self._wait_handler, ...)` closures. -/
def registerAll (now : Time) (state : ℕ) (ms : ℕ) :
    Controller → List (String × CB) → Option (Controller × List SwitchHandler)
  | c, [] => some (c, [])
  | c, (n, cb) :: rest =>
    match add_switch_handler c now n cb state ms with
    | none => none
    | some ch =>
      match registerAll now state ms ch.1 rest with
      | none => none
      | some chs => some (chs.1, ch.2 :: chs.2)

/-- `wait_for_any_switch(switch_names, state, only_on_change, ms)`
(switch_controller.py:342), returning the controller, the future, and the
`handlers` list captured by the future's done-callback. -/
def wait_for_any_switch (c : Controller) (now : Time) (switch_names : List String)
    (state : ℕ) (only_on_change : Bool) (ms : ℕ) (cbs : List CB) :
    Option (Controller × Future × List SwitchHandler) :=
  if !only_on_change then
    match firstSatisfied c now state ms switch_names with
    | none => none
    | some (some n) => some (c, ⟨some ⟨n, state, ms⟩, true⟩, [])
    | some none =>
      match registerAll now state ms c (switch_names.zip cbs) with
      | none => none
      | some chs => some (chs.1, ⟨none, false⟩, chs.2)
  else
    match registerAll now state ms c (switch_names.zip cbs) with
    | none => none
    | some chs => some (chs.1, ⟨none, false⟩, chs.2)

/-! ## Draining the timed queue -/

/-- Run the timed-queue insertions a callback performs, each through
`_add_timed_switch_handler`.  `eff cb` lists the `(deadline, pending)` pairs
callback `cb` inserts when invoked during the drain. -/
def runEffects (c : Controller) (ins : List (Time × TimedSwitchHandler)) : Controller :=
  ins.foldl (fun c p => add_timed_switch_handler c p.1 p.2) c

/-- Inner loop of `_process_active_timed_switches` for one due bucket
(lines 576-584): iterate a snapshot of the bucket, re-check liveness, invoke
each entry's callback. -/
def processEntries (k : Time) (eff : CB → List (Time × TimedSwitchHandler)) :
    Controller → List TimedSwitchHandler → Controller
  | c, [] => c
  | c, e :: rest =>
    let live := (lookupD c.active_timed_switches k).getD []
    if e ∈ live then processEntries k eff (runEffects c (eff e.callback)) rest
    else processEntries k eff c rest

/-- The `next_event_time` accumulator step (lines 586-588), with Python's
falsy test on 0.0: `if not next_event_time or next_event_time > k`. -/
def neStep (ne : Option Time) (k : Time) : Option Time :=
  match ne with
  | none => some k
  | some t => if t = 0 || k < t then some k else some t

/-- Outer loop of `_process_active_timed_switches` over the key snapshot
(lines 574-588): process due buckets (invoking callbacks, then deleting the
whole bucket), accumulate the earliest non-due snapshot key. -/
def drainLoop (now : Time) (eff : CB → List (Time × TimedSwitchHandler)) :
    Controller → Option Time → List Time → Controller × Option Time
  | c, ne, [] => (c, ne)
  | c, ne, k :: ks =>
    if k ≤ now then
      let c1 := processEntries k eff c ((lookupD c.active_timed_switches k).getD [])
      let c2 := { c1 with active_timed_switches := delD c1.active_timed_switches k }
      drainLoop now eff c2 ne ks
    else
      drainLoop now eff c (neStep ne k) ks

/-- `_process_active_timed_switches()` (switch_controller.py:566).  The final
`if next_event_time:` treats 0.0 as falsy, like the source. -/
def process_active_timed_switches (c : Controller) (now : Time)
    (eff : CB → List (Time × TimedSwitchHandler)) : Controller :=
  let r := drainLoop now eff c none (c.active_timed_switches.map (fun p => p.1))
  match r.2 with
  | some t =>
    if t = 0 then r.1
    else scheduleDelay (if r.1.timed_delay.isSome then unscheduleDelay r.1 else r.1) t
  | none => r.1

/-- Well-formedness of the wake-timer bookkeeping: the outstanding scheduled
wake timers are exactly the one referenced by `_timed_switch_handler_delay`
(if any). -/
def WFtimer (c : Controller) : Prop :=
  c.outstanding = c.timed_delay.toList

/-- Merge of two optional minima (used to state the drain's `next_event_time`
characterisation). -/
def combMin : Option Time → Option Time → Option Time
  | none, b => b
  | some a, none => some a
  | some a, some b => some (min a b)

/-- The pure accumulator step for `next_event_time` over one snapshot key. -/
def neAccum (now : Time) (acc : Option Time) (k : Time) : Option Time :=
  if k ≤ now then acc else neStep acc k

/-- Some registry record anywhere in the controller carries callback `cb`. -/
def cbInRegistry (c : Controller) (cb : CB) : Prop :=
  ∃ p ∈ c.registered_switches, ∃ r ∈ p.2, r.callback = cb

/-- Some timed pending anywhere in the controller carries callback `cb`. -/
def cbInQueue (c : Controller) (cb : CB) : Prop :=
  ∃ p ∈ c.active_timed_switches, ∃ e ∈ p.2, e.callback = cb

/-- The registry occurrences of `h.callback` are confined to `h`'s own bucket
with `h`'s dwell, at most one per bucket — the situation created by
registering `h` with a fresh `partial` object as callback. -/
def regOk (c : Controller) (h : SwitchHandler) : Prop :=
  ∀ p ∈ c.registered_switches,
    (∀ r ∈ p.2, r.callback = h.callback →
      p.1 = h.switch_name ++ "-" ++ toString h.state ∧ r.ms = h.ms) ∧
    p.2.countP (fun r => r.ms == h.ms && r.callback == h.callback) ≤ 1

/-- The queued pendings carrying `h.callback` all match `h`'s full
`(switch, state, ms)` tuple, at most one per bucket. -/
def queueOk (c : Controller) (h : SwitchHandler) : Prop :=
  ∀ p ∈ c.active_timed_switches,
    (∀ e ∈ p.2, e.callback = h.callback →
      e.switch_name = h.switch_name ∧ e.state = h.state ∧ e.ms = h.ms) ∧
    p.2.countP (fun e => e.switch_name == h.switch_name && e.state == h.state &&
      e.ms == h.ms && e.callback == h.callback) ≤ 1

/-- Every registry bucket of `c2` is keyed like one of `c` and a sublist of
it (how `remove_switch_handler` transforms the registry). -/
def regShape (c2 c : Controller) : Prop :=
  ∀ p ∈ c2.registered_switches,
    ∃ q ∈ c.registered_switches, p.1 = q.1 ∧ p.2.Sublist q.2

/-- Every timed bucket of `c2` is keyed like one of `c` and a sublist of
it. -/
def queueShape (c2 c : Controller) : Prop :=
  ∀ p ∈ c2.active_timed_switches,
    ∃ q ∈ c.active_timed_switches, p.1 = q.1 ∧ p.2.Sublist q.2

/-! ## Concrete instances used by witnesses and counterexamples -/

/-- Controller for the C1 witness: switch `b` inactive since t=0, both
registry buckets present and empty. -/
def w1ctrl : Controller :=
  ⟨[("b-0", []), ("b-1", [])], [], [("b", ⟨0, 0⟩)], [], none, []⟩

def w1sw : Switch := ⟨"b", false, 0, 0, 0, 0, 0⟩

/-- Controller for the C2 failing input: one timed bucket holding two
adjacent pendings, both watching switch `a` in state 0. -/
def c2ctrl : Controller :=
  ⟨[("a-0", []), ("a-1", [])],
   [(5, [⟨11, "a", 0, 100⟩, ⟨12, "a", 0, 200⟩])],
   [("a", ⟨0, 0⟩)], [], none, []⟩

def c2sw : Switch := ⟨"a", false, 0, 0, 0, 0, 0⟩

/-- Controller for the C4 counterexample: three identical records in the
`a-1` bucket. -/
def c4ctrl : Controller :=
  ⟨[("a-1", [⟨10, 7⟩, ⟨10, 7⟩, ⟨10, 7⟩])], [], [], [], none, []⟩

/-- Controller for the C5 counterexample: switch `s` changed at t=0. -/
def c5ctrl : Controller :=
  ⟨[], [], [("s", ⟨1, 0⟩)], [], none, []⟩

/-- Switch for the C6 witness: recycle window open until t=1/2. -/
def w6sw : Switch := ⟨"p", false, 0, 0, 1/2, 1/2, 3⟩

/-- Controller for the C7 witness: switch `sl` active since t=0, bucket
`sl-1` registered (spec scenario 4: late-join at t=0.1 with 300 ms). -/
def w7ctrl : Controller :=
  ⟨[("sl-0", []), ("sl-1", [])], [], [("sl", ⟨1, 0⟩)], [], none, []⟩

/-- Switch for the C10 witness: already active in the store, duplicate
activation at t=2 with recycle_secs = 1/2 and an expired window. -/
def w10ctrl : Controller :=
  ⟨[("p-0", []), ("p-1", [])], [], [("p", ⟨1, 0⟩)], [], none, []⟩

def w10sw : Switch := ⟨"p", false, 1, 1, 1/2, 1/2, 0⟩

/-- Controller and inverted switch for the C3 witness: NC switch `t`,
inactive in the store. -/
def w3ctrl : Controller :=
  ⟨[("t-0", []), ("t-1", [])], [], [("t", ⟨0, 0⟩)], [], none, []⟩

def w3sw : Switch := ⟨"t", true, 0, 0, 0, 0, 0⟩

/-- C9 counterexample data: buckets at t=1 and t=5; the entry due at t=1
inserts a new pending at t=3 when invoked during the drain at t=2. -/
def c9e1 : TimedSwitchHandler := ⟨21, "x", 1, 100⟩

def c9e2 : TimedSwitchHandler := ⟨22, "y", 1, 100⟩

def c9nh : TimedSwitchHandler := ⟨23, "z", 1, 100⟩

def c9ctrl : Controller :=
  ⟨[], [(1, [c9e1]), (5, [c9e2])], [], [], some 1, [1]⟩

/-- Effect map for the C9 drain: the callback of `c9e1` inserts a pending at
deadline 3; every other callback inserts nothing. -/
def eff9 : CB → List (Time × TimedSwitchHandler) :=
  fun cb => if cb = 21 then [(3, c9nh)] else []

/-- Controller for the C8 witness: switches `a` (inactive) and `b` (active
since t=0), all four registry buckets present and empty. -/
def w8ctrl : Controller :=
  ⟨[("a-0", []), ("a-1", []), ("b-0", []), ("b-1", [])], [],
   [("a", ⟨0, 0⟩), ("b", ⟨1, 0⟩)], [], none, []⟩

/-- Expected controller after the C8 registration path: one `(ms=0, cb)`
record appended per listed switch. -/
def w8c2 : Controller :=
  ⟨[("a-0", []), ("a-1", [⟨0, 101⟩]), ("b-0", []), ("b-1", [⟨0, 102⟩])], [],
   [("a", ⟨0, 0⟩), ("b", ⟨1, 0⟩)], [], none, []⟩

/-- Expected handler keys returned by the C8 registration path. -/
def w8hs : List SwitchHandler := [⟨"a", 101, 1, 0⟩, ⟨"b", 102, 1, 0⟩]

/-! ## Generic lemmas about the loop embeddings -/

theorem eraseFirstP_sublist {α : Type} (p : α → Bool) (l : List α) :
    (eraseFirstP p l).Sublist l := by
  induction l with
  | nil => simp [eraseFirstP]
  | cons x xs ih =>
    by_cases hx : p x
    · simp only [eraseFirstP, hx, if_pos]
      exact List.sublist_cons_self x xs
    · simpa [eraseFirstP, hx] using ih.cons₂ x

theorem countP_eraseFirstP {α : Type} (p : α → Bool) (l : List α)
    (h : ∃ x ∈ l, p x) : (eraseFirstP p l).countP p + 1 = l.countP p := by
  induction l with
  | nil => simp at h
  | cons x xs ih =>
    by_cases hx : p x
    · simp [eraseFirstP, hx, List.countP_cons]
    · obtain ⟨y, hy, hpy⟩ := h
      rcases List.mem_cons.mp hy with rfl | hy2
      · exact absurd hpy hx
      · simp only [eraseFirstP, hx, if_neg, List.countP_cons]
        rw [← ih ⟨y, hy2, hpy⟩]
        simp [hx]

theorem pyRemoveLoopF_sublist {α : Type} (p : α → Bool) :
    ∀ (fuel : ℕ) (l : List α) (i : ℕ), (pyRemoveLoopF fuel p l i).Sublist l := by
  intro fuel
  induction fuel with
  | zero => intro l i; simp [pyRemoveLoopF]
  | succ n ih =>
    intro l i
    simp only [pyRemoveLoopF]
    split
    · split
      · exact (ih (eraseFirstP p l) (i + 1)).trans (eraseFirstP_sublist p l)
      · exact ih l (i + 1)
    · exact List.Sublist.refl l

theorem pyDelLoopF_sublist {α : Type} (p : α → Bool) :
    ∀ (fuel : ℕ) (l : List α) (i : ℕ), (pyDelLoopF fuel p l i).Sublist l := by
  intro fuel
  induction fuel with
  | zero => intro l i; simp [pyDelLoopF]
  | succ n ih =>
    intro l i
    simp only [pyDelLoopF]
    split
    · split
      · exact (ih (l.eraseIdx i) (i + 1)).trans (List.eraseIdx_sublist l i)
      · exact ih l (i + 1)
    · exact List.Sublist.refl l

theorem pyRemoveLoop_sublist {α : Type} (p : α → Bool) (l : List α) :
    (pyRemoveLoop p l).Sublist l := pyRemoveLoopF_sublist p _ l 0

theorem pyDelLoop_sublist {α : Type} (p : α → Bool) (l : List α) :
    (pyDelLoop p l).Sublist l := pyDelLoopF_sublist p _ l 0

theorem pyRemoveLoopF_countP_zero {α : Type} (p : α → Bool) :
    ∀ (fuel : ℕ) (l : List α) (i : ℕ), l.length ≤ i + fuel →
    l.countP p ≤ 1 → (l.take i).countP p = 0 →
    (pyRemoveLoopF fuel p l i).countP p = 0 := by
  intro fuel
  induction fuel with
  | zero =>
    intro l i hlen hle htake
    have : l.take i = l := List.take_of_length_le (by omega)
    simpa [pyRemoveLoopF, this] using htake
  | succ n ih =>
    intro l i hlen hle htake
    simp only [pyRemoveLoopF]
    split
    · rename_i hi
      split
      · rename_i hp
        have hmem : l.get ⟨i, hi⟩ ∈ l := List.get_mem l i hi
        have hcount : (eraseFirstP p l).countP p + 1 = l.countP p :=
          countP_eraseFirstP p l ⟨_, hmem, hp⟩
        have hz : (eraseFirstP p l).countP p = 0 := by omega
        have hsub := pyRemoveLoopF_sublist p n (eraseFirstP p l) (i + 1)
        have := hsub.countP_le p
        omega
      · rename_i hp
        refine ih l (i + 1) (by omega) hle ?_
        have hp2 : p l[i] = false := by
          rw [Bool.not_eq_true] at hp
          exact hp
        have ht1 : l.take (i + 1) = l.take i ++ l[i]?.toList := List.take_succ
        have ht2 : l[i]? = some l[i] := List.getElem?_eq_getElem hi
        rw [ht1, List.countP_append, ht2]
        simp [List.countP_cons, htake, hp2]
    · rename_i hi
      have hta : l.take i = l := List.take_of_length_le (by omega)
      rw [hta] at htake
      exact htake

theorem pyDelLoopF_countP_zero {α : Type} (p : α → Bool) :
    ∀ (fuel : ℕ) (l : List α) (i : ℕ), l.length ≤ i + fuel →
    l.countP p ≤ 1 → (l.take i).countP p = 0 →
    (pyDelLoopF fuel p l i).countP p = 0 := by
  intro fuel
  induction fuel with
  | zero =>
    intro l i hlen hle htake
    have : l.take i = l := List.take_of_length_le (by omega)
    simpa [pyDelLoopF, this] using htake
  | succ n ih =>
    intro l i hlen hle htake
    simp only [pyDelLoopF]
    split
    · rename_i hi
      split
      · rename_i hp
        have hp2 : p l[i] = true := hp
        have hdrop : l.drop i = l[i] :: l.drop (i + 1) := List.drop_eq_getElem_cons hi
        have hsplit : l.countP p = (l.take i).countP p + (l.drop i).countP p := by
          conv_lhs => rw [← List.take_append_drop i l]
          exact List.countP_append p _ _
        have hdc : (l.drop i).countP p = (l.drop (i + 1)).countP p + 1 := by
          rw [hdrop, List.countP_cons, hp2]
          simp
        have hz : (l.eraseIdx i).countP p = 0 := by
          have herase : l.eraseIdx i = l.take i ++ l.drop (i + 1) :=
            List.eraseIdx_eq_take_drop_succ l i
          rw [herase, List.countP_append]
          omega
        have hsub := pyDelLoopF_sublist p n (l.eraseIdx i) (i + 1)
        have := hsub.countP_le p
        omega
      · rename_i hp
        refine ih l (i + 1) (by omega) hle ?_
        have hp2 : p l[i] = false := by
          rw [Bool.not_eq_true] at hp
          exact hp
        have ht1 : l.take (i + 1) = l.take i ++ l[i]?.toList := List.take_succ
        have ht2 : l[i]? = some l[i] := List.getElem?_eq_getElem hi
        rw [ht1, List.countP_append, ht2]
        simp [List.countP_cons, htake, hp2]
    · rename_i hi
      have hta : l.take i = l := List.take_of_length_le (by omega)
      rw [hta] at htake
      exact htake

theorem pyRemoveLoop_countP_zero {α : Type} (p : α → Bool) (l : List α)
    (hle : l.countP p ≤ 1) : (pyRemoveLoop p l).countP p = 0 :=
  pyRemoveLoopF_countP_zero p (l.length + 1) l 0 (by omega) hle (by simp)

theorem pyDelLoop_countP_zero {α : Type} (p : α → Bool) (l : List α)
    (hle : l.countP p ≤ 1) : (pyDelLoop p l).countP p = 0 :=
  pyDelLoopF_countP_zero p (l.length + 1) l 0 (by omega) hle (by simp)

/-! ## Rounding lemmas -/

theorem pythonRound_nonneg {q : ℚ} (h : 0 ≤ q) : 0 ≤ pythonRound q := by
  have hf : (0 : ℤ) ≤ ⌊q⌋ := Int.le_floor.mpr (by exact_mod_cast h)
  unfold pythonRound
  dsimp only
  split
  · exact hf
  · split
    · omega
    · split
      · exact hf
      · omega

theorem pythonRound_int (z : ℤ) : pythonRound (z : ℚ) = z := by
  unfold pythonRound
  simp [Int.floor_intCast]

/-- Off exact half-integers, Python's round-half-to-even agrees with the
spec's round-half-away-from-zero. -/
theorem pythonRound_eq_specRound {q : ℚ} (h : q - ⌊q⌋ ≠ 1/2) :
    pythonRound q = specRound q := by
  have hfl : (⌊q⌋ : ℚ) ≤ q := Int.floor_le q
  have hfu : q < ⌊q⌋ + 1 := Int.lt_floor_add_one q
  unfold pythonRound specRound
  rcases lt_trichotomy (q - (⌊q⌋ : ℚ)) (1/2) with hr | hr | hr
  · rw [if_pos hr]
    by_cases hq : 0 ≤ q
    · rw [if_pos hq]
      symm
      rw [Int.floor_eq_iff]
      constructor
      · linarith
      · linarith
    · rw [if_neg hq]
      have : ⌊-q + 1/2⌋ = -⌊q⌋ := by
        rw [Int.floor_eq_iff]
        constructor
        · push_cast
          linarith
        · push_cast
          linarith
      rw [this]
      ring
  · exact absurd hr h
  · rw [if_neg (by linarith), if_pos hr]
    by_cases hq : 0 ≤ q
    · rw [if_pos hq]
      symm
      rw [Int.floor_eq_iff]
      constructor
      · push_cast
        linarith
      · push_cast
        linarith
    · rw [if_neg hq]
      have : ⌊-q + 1/2⌋ = -⌊q⌋ - 1 := by
        rw [Int.floor_eq_iff]
        constructor
        · push_cast
          linarith
        · push_cast
          linarith
      rw [this]
      ring

/-! ## The remove loop on a bucket of identical records -/

theorem eraseFirstP_replicate {α : Type} (p : α → Bool) (r : α) (hp : p r = true)
    (m : ℕ) : eraseFirstP p (List.replicate (m + 1) r) = List.replicate m r := by
  rw [List.replicate_succ]
  simp [eraseFirstP, hp]

theorem pyRemoveLoopF_replicate {α : Type} (p : α → Bool) (r : α) (hp : p r = true) :
    ∀ (fuel m i : ℕ), m - i ≤ fuel →
    pyRemoveLoopF fuel p (List.replicate m r) i =
      List.replicate (m - (m - i + 1) / 2) r := by
  intro fuel
  induction fuel with
  | zero =>
    intro m i hfuel
    have : m ≤ i := by omega
    have h2 : m - (m - i + 1) / 2 = m := by omega
    rw [h2]
    rfl
  | succ n ih =>
    intro m i hfuel
    simp only [pyRemoveLoopF]
    split
    · rename_i hi
      rw [List.length_replicate] at hi
      have hget : (List.replicate m r).get ⟨i, by simpa using hi⟩ = r := by
        simp
      rw [hget, if_pos hp]
      obtain ⟨m', rfl⟩ : ∃ m', m = m' + 1 := ⟨m - 1, by omega⟩
      rw [eraseFirstP_replicate p r hp]
      rw [ih m' (i + 1) (by omega)]
      congr 1
      omega
    · rename_i hi
      rw [List.length_replicate] at hi
      have : m ≤ i := by omega
      have h2 : m - (m - i + 1) / 2 = m := by omega
      rw [h2]

/-! ## Dictionary lemmas -/

section DictLemmas

variable {κ : Type} {α : Type} [BEq κ] [LawfulBEq κ]

theorem find?_map_setD (d : List (κ × α)) (k : κ) (v : α) :
    (d.map (fun p => if p.1 == k then (k, v) else p)).find? (fun p => p.1 == k) =
      if (d.find? (fun p => p.1 == k)).isSome then some (k, v) else none := by
  induction d with
  | nil => simp
  | cons p d ih =>
    by_cases hp : p.1 == k
    · simp [List.find?_cons, hp]
    · simp only [List.map_cons, List.find?_cons, hp]
      simpa [hp] using ih

theorem lookupD_setD_self (d : List (κ × α)) (k : κ) (v : α) :
    lookupD (setD d k v) k = some v := by
  unfold setD lookupD
  by_cases hfind : (d.find? (fun p => p.1 == k)).isSome
  · rw [if_pos hfind, find?_map_setD, if_pos hfind]
  · rw [if_neg hfind, List.find?_append]
    have hnone : d.find? (fun p => p.1 == k) = none := by
      cases h : d.find? (fun p => p.1 == k) with
      | none => rfl
      | some p => rw [h] at hfind; simp at hfind
    rw [hnone]
    simp [List.find?_cons]

theorem lookupD_setD_ne (d : List (κ × α)) (k k2 : κ) (v : α) (hne : k2 ≠ k) :
    lookupD (setD d k v) k2 = lookupD d k2 := by
  unfold setD lookupD
  by_cases hfind : (d.find? (fun p => p.1 == k)).isSome
  · rw [if_pos hfind]
    clear hfind
    induction d with
    | nil => simp
    | cons p d ih =>
      by_cases hp : p.1 == k
      · have hp2 : (p.1 == k2) = false := by
          have : p.1 = k := by simpa using hp
          simp [this, beq_eq_false_iff_ne, (Ne.symm hne)]
        have hk2 : (k == k2) = false := by
          simp [beq_eq_false_iff_ne, (Ne.symm hne)]
        simp only [List.map_cons, List.find?_cons, hp, if_pos, hk2, hp2]
        exact ih
      · simp only [List.map_cons, List.find?_cons, hp, if_neg]
        cases hp2 : (p.1 == k2) with
        | true => simp [hp2]
        | false => simpa [hp2] using ih
  · rw [if_neg hfind, List.find?_append]
    cases h : d.find? (fun p => p.1 == k2) with
    | some p => simp [h]
    | none =>
      have hk2 : (k == k2) = false := by
        simp [beq_eq_false_iff_ne, (Ne.symm hne)]
      simp [h, List.find?_cons, hk2]

theorem mem_setD (d : List (κ × α)) (k : κ) (v : α) (p : κ × α)
    (hmem : p ∈ setD d k v) : p = (k, v) ∨ (p ∈ d ∧ p.1 ≠ k) := by
  unfold setD at hmem
  by_cases hfind : (d.find? (fun q => q.1 == k)).isSome
  · rw [if_pos hfind] at hmem
    obtain ⟨q, hq, hqe⟩ := List.mem_map.mp hmem
    by_cases hqk : q.1 == k
    · left
      rw [← hqe]
      simp [hqk]
    · right
      have hqeq : (if q.1 == k then (k, v) else q) = q := by
        simp [hqk]
      rw [← hqe, hqeq]
      exact ⟨hq, by simpa using hqk⟩
  · rw [if_neg hfind] at hmem
    rcases List.mem_append.mp hmem with hd | hsingle
    · right
      refine ⟨hd, ?_⟩
      have hnone : d.find? (fun q => q.1 == k) = none := by
        cases h : d.find? (fun q => q.1 == k) with
        | none => rfl
        | some q => rw [h] at hfind; simp at hfind
      have := List.find?_eq_none.mp hnone p hd
      simpa using this
    · left
      simpa using hsingle

theorem lookupD_mem (d : List (κ × α)) (k : κ) (b : α)
    (h : lookupD d k = some b) : (k, b) ∈ d := by
  unfold lookupD at h
  cases hf : d.find? (fun p => p.1 == k) with
  | none => rw [hf] at h; simp at h
  | some p =>
    rw [hf] at h
    have hp1 : p.1 = k := by simpa using List.find?_some hf
    have hp2 : p.2 = b := by simpa using h
    have : p = (k, b) := by
      cases p
      simp_all
    rw [← this]
    exact List.mem_of_find?_eq_some hf

end DictLemmas

/-! ## Frame lemmas for the controller operations -/

theorem add_timed_components (c : Controller) (t : Time) (h : TimedSwitchHandler) :
    (add_timed_switch_handler c t h).registered_switches = c.registered_switches ∧
    (add_timed_switch_handler c t h).switches = c.switches ∧
    (add_timed_switch_handler c t h).monitors = c.monitors ∧
    (add_timed_switch_handler c t h).active_timed_switches =
      appendD c.active_timed_switches t h := by
  unfold add_timed_switch_handler scheduleDelay unscheduleDelay
  cases hd : c.timed_delay with
  | none => simp [hd]
  | some x => simp [hd]

theorem callHandlersLoop_components (now : Time) (name : String) (state : ℕ)
    (key : String) :
    ∀ (entries : List RegisteredSwitch) (c : Controller) (fired : List CB),
    (callHandlersLoop now name state key c fired entries).1.registered_switches =
      c.registered_switches ∧
    (callHandlersLoop now name state key c fired entries).1.switches = c.switches ∧
    (callHandlersLoop now name state key c fired entries).1.monitors = c.monitors := by
  intro entries
  induction entries with
  | nil => intro c fired; simp [callHandlersLoop]
  | cons e rest ih =>
    intro c fired
    simp only [callHandlersLoop]
    split
    · split
      · have h1 := add_timed_components c (now + (e.ms : ℚ) / 1000)
          ⟨e.callback, name, state, e.ms⟩
        have h2 := ih (add_timed_switch_handler c (now + (e.ms : ℚ) / 1000)
          ⟨e.callback, name, state, e.ms⟩) fired
        exact ⟨h2.1.trans h1.1, h2.2.1.trans h1.2.1, h2.2.2.trans h1.2.2.1⟩
      · exact ih c (fired ++ [e.callback])
    · exact ih c fired

theorem call_handlers_components (c : Controller) (now : Time) (name : String)
    (state : ℕ) :
    (call_handlers c now name state).1.registered_switches = c.registered_switches ∧
    (call_handlers c now name state).1.switches = c.switches ∧
    (call_handlers c now name state).1.monitors = c.monitors := by
  unfold call_handlers
  cases h : lookupD c.registered_switches (name ++ "-" ++ toString state) with
  | none => simp [h]
  | some entries =>
    simp only [h]
    exact callHandlersLoop_components now name state _ entries c []

theorem cancel_components (c : Controller) (name : String) (state : ℕ) :
    (cancel_timed_handlers c name state).registered_switches = c.registered_switches ∧
    (cancel_timed_handlers c name state).switches = c.switches ∧
    (cancel_timed_handlers c name state).monitors = c.monitors := by
  simp [cancel_timed_handlers]


/-! ## Path lemmas for `process_switch_obj` -/

theorem process_accepted_switches (c : Controller) (now : Time) (name : String)
    (state : ℕ) :
    (process_accepted c now name state).1.switches =
      setD c.switches name ⟨state, now⟩ := by
  show (cancel_timed_handlers (call_handlers (set_state c now name state false)
    now name state).1 name state).switches = _
  rw [(cancel_components _ name state).2.1,
    (call_handlers_components _ now name state).2.1]
  simp [set_state]

theorem process_switch_obj_rejected (c : Controller) (now : Time) (sw : Switch)
    (s0 : ℕ) (logical : Bool)
    (hs : (logicalAndHw sw.invert logical s0).1 ≠ 0)
    (hclear : ¬ sw.recycle_clear_time ≤ now) :
    process_switch_obj c now sw s0 logical =
      some ⟨c,
        { sw with hw_state := (logicalAndHw sw.invert logical s0).2,
                  recycle_jitter_count := sw.recycle_jitter_count + 1 },
        [], [],
        [⟨sw.recycle_clear_time, sw.name, (logicalAndHw sw.invert logical s0).1,
          logical, (logicalAndHw sw.invert logical s0).2⟩]⟩ := by
  unfold process_switch_obj check_recycle_time
  simp [hs, hclear]

theorem process_switch_obj_dup (c : Controller) (now : Time) (sw : Switch)
    (s0 : ℕ) (logical : Bool) (ss : SwitchState)
    (hgate : (logicalAndHw sw.invert logical s0).1 ≠ 0 → sw.recycle_clear_time ≤ now)
    (hss : lookupD c.switches sw.name = some ss)
    (hdup : ss.state = (logicalAndHw sw.invert logical s0).1) :
    process_switch_obj c now sw s0 logical =
      some ⟨c,
        (if (logicalAndHw sw.invert logical s0).1 ≠ 0 then
          { sw with hw_state := (logicalAndHw sw.invert logical s0).2,
                    state := (logicalAndHw sw.invert logical s0).1,
                    recycle_clear_time := now + sw.recycle_secs }
         else
          { sw with hw_state := (logicalAndHw sw.invert logical s0).2,
                    state := (logicalAndHw sw.invert logical s0).1 }),
        [], [], []⟩ := by
  unfold process_switch_obj
  by_cases hs : (logicalAndHw sw.invert logical s0).1 ≠ 0
  · have hc := hgate hs
    unfold check_recycle_time
    simp [hs, hc, hss, hdup]
  · simp [hs, hss, hdup]

theorem process_switch_obj_accept (c : Controller) (now : Time) (sw : Switch)
    (s0 : ℕ) (logical : Bool) (ss : SwitchState)
    (hgate : (logicalAndHw sw.invert logical s0).1 ≠ 0 → sw.recycle_clear_time ≤ now)
    (hss : lookupD c.switches sw.name = some ss)
    (hdup : ss.state ≠ (logicalAndHw sw.invert logical s0).1) :
    process_switch_obj c now sw s0 logical =
      some ⟨(process_accepted c now sw.name (logicalAndHw sw.invert logical s0).1).1,
        (if (logicalAndHw sw.invert logical s0).1 ≠ 0 then
          { sw with hw_state := (logicalAndHw sw.invert logical s0).2,
                    state := (logicalAndHw sw.invert logical s0).1,
                    recycle_clear_time := now + sw.recycle_secs }
         else
          { sw with hw_state := (logicalAndHw sw.invert logical s0).2,
                    state := (logicalAndHw sw.invert logical s0).1 }),
        (process_accepted c now sw.name (logicalAndHw sw.invert logical s0).1).2,
        (process_accepted c now sw.name
          (logicalAndHw sw.invert logical s0).1).1.monitors.map
            (fun m => (m, ⟨sw.name, (logicalAndHw sw.invert logical s0).1⟩)),
        []⟩ := by
  unfold process_switch_obj
  by_cases hs : (logicalAndHw sw.invert logical s0).1 ≠ 0
  · have hc := hgate hs
    unfold check_recycle_time
    simp [hs, hc, hss, hdup]
  · simp [hs, hss, hdup]

/-! ## Claim theorems -/

/-- C1: for every switch and state, if `process_switch` is accepted (the
recycle gate passed and the store did not already record the incoming logical
state), then afterwards the state-store entry holds exactly the dispatched
logical state with `last_change_time = now`, and `ms_since_change` evaluated
at that same clock reading is 0. -/
theorem C1_accept_updates_store (c : Controller) (now : Time) (sw : Switch)
    (s0 : ℕ) (logical : Bool) (ss : SwitchState)
    (hss : lookupD c.switches sw.name = some ss)
    (hgate : (logicalAndHw sw.invert logical s0).1 ≠ 0 → sw.recycle_clear_time ≤ now)
    (hdup : ss.state ≠ (logicalAndHw sw.invert logical s0).1) :
    ∃ r, process_switch_obj c now sw s0 logical = some r ∧
      lookupD r.ctrl.switches sw.name =
        some ⟨(logicalAndHw sw.invert logical s0).1, now⟩ ∧
      ms_since_change r.ctrl now sw.name = some 0 := by
  refine ⟨_, process_switch_obj_accept c now sw s0 logical ss hgate hss hdup, ?_, ?_⟩
  · show lookupD (process_accepted c now sw.name
      (logicalAndHw sw.invert logical s0).1).1.switches sw.name = _
    rw [process_accepted_switches, lookupD_setD_self]
  · show ms_since_change (process_accepted c now sw.name
      (logicalAndHw sw.invert logical s0).1).1 now sw.name = some 0
    unfold ms_since_change
    rw [process_accepted_switches, lookupD_setD_self]
    have hz : (now - now) * 1000 = ((0 : ℤ) : ℚ) := by push_cast; ring
    simp only [hz, pythonRound_int]

/-- Witness for C1 at a concrete input: switch `b`, inactive since t=0,
activated logically at t=1. -/
theorem C1_witness :
    ∃ r, process_switch_obj w1ctrl 1 w1sw 1 true = some r ∧
      lookupD r.ctrl.switches "b" = some ⟨1, 1⟩ ∧
      ms_since_change r.ctrl 1 "b" = some 0 :=
  C1_accept_updates_store w1ctrl 1 w1sw 1 true ⟨0, 0⟩ (by decide) (by decide) (by decide)

/-- C2 (code vs stated contract): processing an accepted activation of `a`
should cancel every pending watching `(a, 0)`, but with two adjacent matching
pendings in one bucket the delete loop skips the second: it survives the
call.  The spec itself flags this partial cancellation as a reference bug, so
the code contradicts the intended contract. -/
theorem C2_cancel_skips_adjacent_pending :
    (process_switch_obj c2ctrl 1 c2sw 1 true).map
        (fun r => r.ctrl.active_timed_switches) =
      some [(5, [⟨12, "a", 0, 200⟩])] := by
  decide

/-- C4 counterexample: with three identical `(ms, callback)` records in the
bucket the claim predicts exactly one removal (two records remain), but the
remove loop removes two and leaves one. -/
theorem C4_counterexample :
    lookupD (remove_switch_handler c4ctrl "a" 7 1 10).registered_switches "a-1" =
      some [⟨10, 7⟩] ∧
    (some [(⟨10, 7⟩ : RegisteredSwitch)] ≠
      some [(⟨10, 7⟩ : RegisteredSwitch), ⟨10, 7⟩]) := by
  constructor
  · decide
  · decide

/-- C4 (amended): `remove_switch_handler` removes the first matching record,
but the enumerate-plus-remove scan keeps walking the shrinking bucket and
can remove further matches: with `n` identical matching records exactly
`n - n / 2` are removed and `n / 2` remain (so the claim's behaviour holds
for a bucket of at most two identical records, not in general). -/
theorem C4_remove_first_match (c : Controller) (name : String) (cb : CB)
    (state ms n : ℕ)
    (hbucket : lookupD c.registered_switches (name ++ "-" ++ toString state) =
      some (List.replicate n ⟨ms, cb⟩)) :
    lookupD (remove_switch_handler c name cb state ms).registered_switches
        (name ++ "-" ++ toString state) =
      some (List.replicate (n / 2) ⟨ms, cb⟩) := by
  unfold remove_switch_handler
  simp only [hbucket]
  have hp : (fun s : RegisteredSwitch => s.ms == ms && s.callback == cb) ⟨ms, cb⟩
      = true := by simp
  have hrep : pyRemoveLoop
      (fun s : RegisteredSwitch => s.ms == ms && s.callback == cb)
      (List.replicate n ⟨ms, cb⟩) = List.replicate (n / 2) ⟨ms, cb⟩ := by
    unfold pyRemoveLoop
    rw [List.length_replicate]
    rw [pyRemoveLoopF_replicate
      (fun s : RegisteredSwitch => s.ms == ms && s.callback == cb)
      (⟨ms, cb⟩ : RegisteredSwitch) hp (n + 1) n 0 (by omega)]
    congr 1
    omega
  rw [hrep]
  exact lookupD_setD_self _ _ _

/-- Witness for C4's amended theorem: three identical records leave
`3 / 2 = 1` record. -/
theorem C4_witness :
    lookupD (remove_switch_handler c4ctrl "a" 7 1 10).registered_switches "a-1" =
      some (List.replicate 1 ⟨10, 7⟩) :=
  C4_remove_first_match c4ctrl "a" 7 1 10 3 (by decide)

/-- C5 counterexample: at 0.5 ms since the last change, Python 3's
`round` (half to even) yields 0 ms, while the claimed half-away-from-zero
rounding yields 1 ms. -/
theorem C5_counterexample :
    ms_since_change c5ctrl (1/2000) "s" = some 0 ∧
    specRound ((1/2000 - 0) * 1000) = 1 ∧ (0 : ℤ) ≠ 1 := by
  refine ⟨?_, ?_, by decide⟩
  · have h1 : lookupD c5ctrl.switches "s" = some ⟨1, 0⟩ := by decide
    unfold ms_since_change
    rw [h1]
    norm_num [pythonRound]
  · norm_num [specRound]

/-- C5 (amended): `ms_since_change` returns
`round((now - last_change_time) * 1000)` computed with Python 3's
round-half-to-even; this agrees with the claimed half-away-from-zero rounding
except at exact half-integers, where the tie goes to the even integer. -/
theorem C5_ms_since_change_rounding (c : Controller) (now : Time) (name : String)
    (st : ℕ) (t : Time) (hss : lookupD c.switches name = some ⟨st, t⟩) :
    ms_since_change c now name = some (pythonRound ((now - t) * 1000)) ∧
    ∀ q : ℚ, q - ⌊q⌋ ≠ 1/2 → pythonRound q = specRound q := by
  constructor
  · unfold ms_since_change
    rw [hss]
  · exact fun q h => pythonRound_eq_specRound h

/-- Witness for C5's amended theorem: concrete store lookup, and agreement
of the two roundings at the off-tie point q = 2. -/
theorem C5_witness :
    ms_since_change c5ctrl 1 "s" = some (pythonRound ((1 - 0) * 1000)) ∧
    pythonRound (2 : ℚ) = specRound (2 : ℚ) := by
  have h := C5_ms_since_change_rounding c5ctrl 1 "s" 1 0 (by decide)
  exact ⟨h.1, h.2 2 (by norm_num)⟩

/-- C10: when `process_switch_obj` returns through the duplicate-state branch
(the store already records the incoming logical state and the recycle gate
did not reject), the controller (state store, handler registry, timed queue,
monitors) is unchanged and no callbacks, monitor notifications or retries
happen, but the device is still mutated: `hw_state` is rewritten to the
physical level, `state` is reassigned, and for activations
`recycle_clear_time` is advanced to `now + recycle_secs`. -/
theorem C10_duplicate_state_frame (c : Controller) (now : Time) (sw : Switch)
    (s0 : ℕ) (logical : Bool) (ss : SwitchState)
    (hss : lookupD c.switches sw.name = some ss)
    (hgate : (logicalAndHw sw.invert logical s0).1 ≠ 0 → sw.recycle_clear_time ≤ now)
    (hdup : ss.state = (logicalAndHw sw.invert logical s0).1) :
    ∃ r, process_switch_obj c now sw s0 logical = some r ∧
      r.ctrl = c ∧ r.fired = [] ∧ r.monitored = [] ∧ r.retries = [] ∧
      r.sw.name = sw.name ∧ r.sw.invert = sw.invert ∧
      r.sw.hw_state = (logicalAndHw sw.invert logical s0).2 ∧
      r.sw.state = (logicalAndHw sw.invert logical s0).1 ∧
      r.sw.recycle_secs = sw.recycle_secs ∧
      r.sw.recycle_jitter_count = sw.recycle_jitter_count ∧
      r.sw.recycle_clear_time =
        (if (logicalAndHw sw.invert logical s0).1 ≠ 0 then now + sw.recycle_secs
         else sw.recycle_clear_time) := by
  refine ⟨_, process_switch_obj_dup c now sw s0 logical ss hgate hss hdup,
    rfl, rfl, rfl, rfl, ?_, ?_, ?_, ?_, ?_, ?_, ?_⟩
  all_goals by_cases hs : (logicalAndHw sw.invert logical s0).1 ≠ 0 <;> simp [hs]

/-- Witness for C10: duplicate activation of `p` at t=2 with an expired
half-second recycle window; the window is re-armed to t=2.5 and the
controller is untouched. -/
theorem C10_witness :
    ∃ r, process_switch_obj w10ctrl 2 w10sw 1 true = some r ∧
      r.ctrl = w10ctrl ∧ r.fired = [] ∧ r.monitored = [] ∧ r.retries = [] ∧
      r.sw.name = "p" ∧ r.sw.invert = false ∧
      r.sw.hw_state = 1 ∧ r.sw.state = 1 ∧
      r.sw.recycle_secs = 1/2 ∧ r.sw.recycle_jitter_count = 0 ∧
      r.sw.recycle_clear_time = (if (1 : ℕ) ≠ 0 then 2 + (1/2 : ℚ) else 1/2) :=
  C10_duplicate_state_frame w10ctrl 2 w10sw 1 true ⟨1, 0⟩
    (by decide) (by intro h; norm_num [w10sw]) (by decide)

/-- Path lemma: with the recycle gate passing and the switch name absent from
the state store, `process_switch_obj` raises `KeyError` (returns `none`). -/
theorem process_switch_obj_nostore (c : Controller) (now : Time) (sw : Switch)
    (s0 : ℕ) (logical : Bool)
    (hgate : (logicalAndHw sw.invert logical s0).1 ≠ 0 → sw.recycle_clear_time ≤ now)
    (hss : lookupD c.switches sw.name = none) :
    process_switch_obj c now sw s0 logical = none := by
  unfold process_switch_obj
  by_cases hs : (logicalAndHw sw.invert logical s0).1 ≠ 0
  · have hc := hgate hs
    unfold check_recycle_time
    simp [hs, hc, hss]
  · simp [hs, hss]

/-- In every path of `process_switch_obj` that returns a result, the device's
`hw_state` field has been rewritten to the computed physical wire level. -/
theorem process_switch_obj_hw (c : Controller) (now : Time) (sw : Switch)
    (s0 : ℕ) (logical : Bool) (r : ProcResult)
    (h : process_switch_obj c now sw s0 logical = some r) :
    r.sw.hw_state = (logicalAndHw sw.invert logical s0).2 := by
  by_cases hrej : (logicalAndHw sw.invert logical s0).1 ≠ 0 ∧
      ¬ sw.recycle_clear_time ≤ now
  · rw [process_switch_obj_rejected c now sw s0 logical hrej.1 hrej.2] at h
    cases h
    rfl
  · have hgate : (logicalAndHw sw.invert logical s0).1 ≠ 0 →
        sw.recycle_clear_time ≤ now := by
      intro hs
      by_contra hc
      exact hrej ⟨hs, hc⟩
    cases hl : lookupD c.switches sw.name with
    | none =>
      rw [process_switch_obj_nostore c now sw s0 logical hgate hl] at h
      cases h
    | some ss =>
      by_cases hdup : ss.state = (logicalAndHw sw.invert logical s0).1
      · rw [process_switch_obj_dup c now sw s0 logical ss hgate hl hdup] at h
        cases h
        by_cases hs : (logicalAndHw sw.invert logical s0).1 ≠ 0 <;> simp [hs]
      · rw [process_switch_obj_accept c now sw s0 logical ss hgate hl hdup] at h
        cases h
        by_cases hs : (logicalAndHw sw.invert logical s0).1 ≠ 0 <;> simp [hs]

/-- C3: for an inverted (NC) switch and raw input in {0,1}: a logical input
is dispatched as-is with `hw_state` set to its complement; a physical input
is dispatched complemented with `hw_state` set to the raw level.  In all
cases — inverted or not, accepted, rejected or duplicate — the device's
`hw_state` field is rewritten to the physical wire level, and on acceptance
the store receives the dispatched logical state. -/
theorem C3_nc_inversion (sw : Switch) (s0 : ℕ) (logical : Bool)
    (hinv : sw.invert = true) (hs : s0 = 0 ∨ s0 = 1) :
    (logical = true → logicalAndHw sw.invert logical s0 = (s0, s0 ^^^ 1)) ∧
    (logical = false → logicalAndHw sw.invert logical s0 = (s0 ^^^ 1, s0)) ∧
    (∀ (sw2 : Switch) (s2 : ℕ) (logical2 : Bool) (c : Controller) (now : Time)
        (r : ProcResult),
      process_switch_obj c now sw2 s2 logical2 = some r →
      r.sw.hw_state = (logicalAndHw sw2.invert logical2 s2).2) ∧
    (∀ (c : Controller) (now : Time) (ss : SwitchState),
      lookupD c.switches sw.name = some ss →
      ((logicalAndHw sw.invert logical s0).1 ≠ 0 → sw.recycle_clear_time ≤ now) →
      ss.state ≠ (logicalAndHw sw.invert logical s0).1 →
      ∃ r, process_switch_obj c now sw s0 logical = some r ∧
        lookupD r.ctrl.switches sw.name =
          some ⟨(logicalAndHw sw.invert logical s0).1, now⟩) := by
  refine ⟨?_, ?_, ?_, ?_⟩
  · intro hl
    rcases hs with rfl | rfl <;> simp [logicalAndHw, hinv, hl]
  · intro hl
    rcases hs with rfl | rfl <;> simp [logicalAndHw, hinv, hl]
  · intro sw2 s2 logical2 c now r h
    exact process_switch_obj_hw c now sw2 s2 logical2 r h
  · intro c now ss hss hgate hdup
    refine ⟨_, process_switch_obj_accept c now sw s0 logical ss hgate hss hdup, ?_⟩
    show lookupD (process_accepted c now sw.name
      (logicalAndHw sw.invert logical s0).1).1.switches sw.name = _
    rw [process_accepted_switches, lookupD_setD_self]

/-- Witness for C3: inverted switch `t`, physical input 0 dispatches logical
state 1 with `hw_state = 0` (spec scenario 2). -/
theorem C3_witness :
    logicalAndHw true false 0 = (1, 0) ∧
    ∃ r, process_switch_obj w3ctrl 1 w3sw 0 false = some r ∧
      lookupD r.ctrl.switches "t" = some ⟨1, 1⟩ := by
  have h := C3_nc_inversion w3sw 0 false rfl (Or.inl rfl)
  refine ⟨h.2.1 rfl, ?_⟩
  obtain ⟨r, hr, hl⟩ := h.2.2.2 w3ctrl 1 ⟨0, 0⟩ (by decide) (by decide) (by decide)
  exact ⟨r, hr, hl⟩

/-- C6: an activation dispatching logical state 1 that arrives while
`now < recycle_clear_time` increments only `recycle_jitter_count` (besides the
unconditional `hw_state` write), leaves the controller — state store, handler
registry, timed queue, monitors — completely untouched, fires no callbacks or
monitor notifications, and schedules exactly one retry at
`recycle_clear_time`; the retry re-invokes `process_switch` if and only if the
device's physical `hw_state` at retry time still equals the value captured at
rejection. -/
theorem C6_recycle_rejection (c : Controller) (now : Time) (sw : Switch)
    (logical : Bool)
    (hdisp : (logicalAndHw sw.invert logical 1).1 = 1)
    (hclear : now < sw.recycle_clear_time) :
    process_switch_obj c now sw 1 logical =
      some ⟨c,
        { sw with hw_state := (logicalAndHw sw.invert logical 1).2,
                  recycle_jitter_count := sw.recycle_jitter_count + 1 },
        [], [],
        [⟨sw.recycle_clear_time, sw.name, 1, logical,
          (logicalAndHw sw.invert logical 1).2⟩]⟩ ∧
    (∀ (c2 : Controller) (t : Time) (sw2 : Switch),
      (sw2.hw_state = (logicalAndHw sw.invert logical 1).2 →
        recycle_passed c2 t sw2 1 logical (logicalAndHw sw.invert logical 1).2 =
          process_switch_obj c2 t sw2 1 logical) ∧
      (sw2.hw_state ≠ (logicalAndHw sw.invert logical 1).2 →
        recycle_passed c2 t sw2 1 logical (logicalAndHw sw.invert logical 1).2 =
          some ⟨c2, sw2, [], [], []⟩)) := by
  constructor
  · have h := process_switch_obj_rejected c now sw 1 logical
      (by rw [hdisp]; exact one_ne_zero) (not_le.mpr hclear)
    rw [h, hdisp]
  · intro c2 t sw2
    constructor
    · intro hmatch
      unfold recycle_passed
      rw [if_pos hmatch]
    · intro hmatch
      unfold recycle_passed
      rw [if_neg hmatch]

/-- Witness for C6: switch `p` with a recycle window open until t=1/2,
re-activated at t=1/5 (spec scenario 5 shape): jitter goes 3 to 4, retry
scheduled at t=1/2; the retry dispatches exactly when `hw_state` still
matches. -/
theorem C6_witness :
    process_switch_obj w1ctrl (1/5) w6sw 1 true =
      some ⟨w1ctrl,
        { w6sw with hw_state := 1, recycle_jitter_count := 4 },
        [], [], [⟨1/2, "p", 1, true, 1⟩]⟩ ∧
    recycle_passed w1ctrl 1 { w6sw with hw_state := 1 } 1 true 1 =
      process_switch_obj w1ctrl 1 { w6sw with hw_state := 1 } 1 true := by
  have h := C6_recycle_rejection w1ctrl (1/5) w6sw true (by decide)
    (by norm_num [w6sw])
  constructor
  · exact h.1
  · exact (h.2 w1ctrl 1 { w6sw with hw_state := 1 }).1 (by decide)

/-- C7: `add_switch_handler` with `ms > 0`, called while the switch is
already in `state` (for `state` in {0,1}) and has dwelt
`ms_since_change < ms`, inserts a `TimedSwitchHandler` for
`(switch_name, state, ms, callback)` into the timed queue at deadline
`now + (ms - ms_since_change)/1000`; if the switch is not currently in
`state` or has already dwelt at least `ms`, the timed queue is unchanged. -/
theorem C7_late_join (c : Controller) (now : Time) (name : String) (cb : CB)
    (state ms st : ℕ) (t : Time) (bucket : List RegisteredSwitch)
    (hms : ms ≠ 0)
    (hkey : lookupD c.registered_switches (name ++ "-" ++ toString state) =
      some bucket)
    (hst : lookupD c.switches name = some ⟨st, t⟩)
    (ht : t ≤ now)
    (hstate : state = 0 ∨ state = 1) :
    (st = state ∧ pythonRound ((now - t) * 1000) < (ms : ℤ) →
      ∃ c2, add_switch_handler c now name cb state ms =
          some (c2, ⟨name, cb, state, ms⟩) ∧
        c2.active_timed_switches =
          appendD c.active_timed_switches
            (now + ((ms : ℚ) - ((pythonRound ((now - t) * 1000) : ℤ) : ℚ)) / 1000)
            ⟨cb, name, state, ms⟩) ∧
    (st ≠ state ∨ (ms : ℤ) ≤ pythonRound ((now - t) * 1000) →
      ∃ c2, add_switch_handler c now name cb state ms =
          some (c2, ⟨name, cb, state, ms⟩) ∧
        c2.active_timed_switches = c.active_timed_switches) := by
  have hmsc0 : (0 : ℤ) ≤ pythonRound ((now - t) * 1000) := by
    apply pythonRound_nonneg
    have h0 : (0 : ℚ) ≤ now - t := by linarith
    positivity
  unfold add_switch_handler
  dsimp only
  rw [hkey]
  dsimp only
  rw [if_pos hms, hst]
  dsimp only
  constructor
  · rintro ⟨hdw, hlt⟩
    rw [if_pos hlt]
    split
    · exact ⟨_, rfl, (add_timed_components _ _ _).2.2.2⟩
    · rename_i hcnd
      exfalso
      apply hcnd
      rcases hstate with rfl | rfl <;> simp [hdw, hmsc0]
  · intro hneg
    by_cases hlt : pythonRound ((now - t) * 1000) < (ms : ℤ)
    · rw [if_pos hlt]
      rcases hneg with hne | hge
      · split
        · rename_i hcnd
          exfalso
          rcases hstate with rfl | rfl <;> simp_all
        · exact ⟨_, rfl, rfl⟩
      · omega
    · rw [if_neg hlt]
      exact ⟨_, rfl, rfl⟩

/-- Witness for C7 (spec scenario 4): switch `sl` active since t=0, handler
`(sl, 1, 300 ms)` registered at t=1/10; a pending is inserted at deadline
1/10 + (300 - 100)/1000 = 3/10. -/
theorem C7_witness :
    ∃ c2, add_switch_handler w7ctrl (1/10) "sl" 55 1 300 =
        some (c2, ⟨"sl", 55, 1, 300⟩) ∧
      c2.active_timed_switches =
        appendD w7ctrl.active_timed_switches
          (1/10 + ((300 : ℚ) -
            ((pythonRound ((1/10 - 0) * 1000) : ℤ) : ℚ)) / 1000)
          ⟨55, "sl", 1, 300⟩ := by
  refine (C7_late_join w7ctrl (1/10) "sl" 55 1 300 1 0 [] (by decide) (by decide)
    (by decide) (by norm_num) (Or.inr rfl)).1 ⟨rfl, ?_⟩
  norm_num [pythonRound]

/-! ## Wake-timer lemmas -/

theorem appendD_ne_nil {κ : Type} {α : Type} [BEq κ]
    (d : List (κ × List α)) (k : κ) (v : α) : appendD d k v ≠ [] := by
  unfold appendD
  cases h : lookupD d k with
  | none => simp
  | some l =>
    cases d with
    | nil => simp [lookupD] at h
    | cons p ps =>
      unfold setD
      repeat' split
      all_goals simp

theorem minKeys_of_ne_nil (d : List (Time × List TimedSwitchHandler))
    (h : d ≠ []) : ∃ m, minKeys d = some m := by
  unfold minKeys
  cases hd : d with
  | nil => exact absurd hd h
  | cons p ps => exact ⟨_, rfl⟩

theorem minKeys_eq_min? (d : List (Time × List TimedSwitchHandler)) :
    minKeys d = (d.map (fun p => p.1)).min? := by
  unfold minKeys
  cases h : d.map (fun p => p.1) with
  | nil => rfl
  | cons t ts => rfl

theorem add_timed_timer (c : Controller) (t : Time) (h : TimedSwitchHandler)
    (hwf : WFtimer c) :
    WFtimer (add_timed_switch_handler c t h) ∧
    (add_timed_switch_handler c t h).timed_delay =
      minKeys (add_timed_switch_handler c t h).active_timed_switches := by
  obtain ⟨m, hm⟩ := minKeys_of_ne_nil (appendD c.active_timed_switches t h)
    (appendD_ne_nil c.active_timed_switches t h)
  unfold add_timed_switch_handler scheduleDelay unscheduleDelay
  unfold WFtimer at hwf
  cases hd : c.timed_delay with
  | none =>
    have hout : c.outstanding = [] := by rw [hwf, hd]; rfl
    constructor
    · unfold WFtimer
      simp [hd, hout]
    · simp only [hd]
      simp [hm]
  | some x =>
    have hout : c.outstanding = [x] := by rw [hwf, hd]; rfl
    constructor
    · unfold WFtimer
      simp [hd, hout, List.erase_cons_head]
    · simp only [hd]
      simp [hm]

theorem runEffects_wf (ins : List (Time × TimedSwitchHandler)) :
    ∀ (c : Controller), WFtimer c → WFtimer (runEffects c ins) := by
  induction ins with
  | nil => intro c hwf; exact hwf
  | cons p rest ih =>
    intro c hwf
    exact ih _ (add_timed_timer c p.1 p.2 hwf).1

theorem processEntries_wf (k : Time) (eff : CB → List (Time × TimedSwitchHandler)) :
    ∀ (entries : List TimedSwitchHandler) (c : Controller),
      WFtimer c → WFtimer (processEntries k eff c entries) := by
  intro entries
  induction entries with
  | nil => intro c hwf; exact hwf
  | cons e rest ih =>
    intro c hwf
    unfold processEntries
    dsimp only
    split
    · exact ih _ (runEffects_wf _ c hwf)
    · exact ih _ hwf

theorem drainLoop_wf (now : Time) (eff : CB → List (Time × TimedSwitchHandler)) :
    ∀ (ks : List Time) (c : Controller) (ne : Option Time),
      WFtimer c → WFtimer (drainLoop now eff c ne ks).1 := by
  intro ks
  induction ks with
  | nil => intro c ne hwf; exact hwf
  | cons k rest ih =>
    intro c ne hwf
    unfold drainLoop
    split
    · apply ih
      have h1 : WFtimer (processEntries k eff c
          ((lookupD c.active_timed_switches k).getD [])) :=
        processEntries_wf k eff _ c hwf
      unfold WFtimer at h1
      unfold WFtimer
      exact h1
    · exact ih c _ hwf

theorem drainLoop_snd (now : Time) (eff : CB → List (Time × TimedSwitchHandler)) :
    ∀ (ks : List Time) (c : Controller) (ne : Option Time),
      (drainLoop now eff c ne ks).2 = ks.foldl (neAccum now) ne := by
  intro ks
  induction ks with
  | nil => intro c ne; rfl
  | cons k rest ih =>
    intro c ne
    unfold drainLoop
    split
    · rename_i hk
      rw [ih]
      have hstep : neAccum now ne k = ne := by simp [neAccum, hk]
      simp [List.foldl_cons, hstep]
    · rename_i hk
      rw [ih]
      have hstep : neAccum now ne k = neStep ne k := by simp [neAccum, hk]
      simp [List.foldl_cons, hstep]

theorem neFold_min (now : Time) (hnow : 0 ≤ now) :
    ∀ (ks : List Time) (acc : Option Time), (∀ m, acc = some m → now < m) →
    ks.foldl (neAccum now) acc =
      combMin acc ((ks.filter (fun k => !(k ≤ now))).min?) := by
  intro ks
  induction ks with
  | nil =>
    intro acc hacc
    cases acc <;> rfl
  | cons k ks ih =>
    intro acc hacc
    by_cases hk : k ≤ now
    · have hstep : neAccum now acc k = acc := by simp [neAccum, hk]
      have hfil : (k :: ks).filter (fun k => !(k ≤ now)) =
          ks.filter (fun k => !(k ≤ now)) := by simp [hk]
      rw [List.foldl_cons, hstep, hfil]
      exact ih acc hacc
    · have hlt : now < k := lt_of_not_le hk
      have hfil : (k :: ks).filter (fun k => !(k ≤ now)) =
          k :: ks.filter (fun k => !(k ≤ now)) := by simp [hk]
      rw [List.foldl_cons, hfil, List.min?_cons]
      cases acc with
      | none =>
        have hstep : neAccum now none k = some k := by simp [neAccum, hk, neStep]
        rw [hstep, ih (some k) (by intro m hm; cases hm; exact hlt)]
        cases hX : (ks.filter (fun k => !(k ≤ now))).min? <;> simp [combMin, hX]
      | some t =>
        have ht : now < t := hacc t rfl
        have ht0 : ¬ t = 0 := by
          intro h0
          rw [h0] at ht
          exact absurd (lt_of_le_of_lt hnow ht) (lt_irrefl 0)
        have hstep : neAccum now (some t) k = some (min t k) := by
          by_cases hkt : k < t
          · simp [neAccum, hk, neStep, ht0, hkt, min_eq_right (le_of_lt hkt)]
          · simp [neAccum, hk, neStep, ht0, hkt, min_eq_left (not_lt.mp hkt)]
        rw [hstep, ih (some (min t k))
          (by intro m hm; cases hm; exact lt_min ht hlt)]
        cases hX : (ks.filter (fun k => !(k ≤ now))).min? with
        | none => simp [combMin, hX]
        | some m => simp [combMin, hX, min_assoc]

theorem reschedule_wf (c : Controller) (t : Time) (hwf : WFtimer c) :
    WFtimer (scheduleDelay (if c.timed_delay.isSome then unscheduleDelay c else c) t) ∧
    (scheduleDelay (if c.timed_delay.isSome then unscheduleDelay c else c) t).timed_delay
      = some t := by
  unfold WFtimer at hwf
  unfold WFtimer scheduleDelay unscheduleDelay
  cases hd : c.timed_delay with
  | none =>
    rw [hd] at hwf
    simp [hd, hwf]
  | some x =>
    rw [hd] at hwf
    simp [hd, hwf, List.erase_cons_head]

theorem outstanding_le_one (c : Controller) (hwf : WFtimer c) :
    c.outstanding.length ≤ 1 := by
  unfold WFtimer at hwf
  rw [hwf]
  cases c.timed_delay <;> simp

/-- C9 counterexample: drain `c9ctrl` at t=2.  The entry due at t=1 inserts a
pending at t=3 (earlier than the surviving bucket at t=5), but the final
reschedule only considers snapshot keys, so the wake timer ends at t=5 while
the earliest remaining deadline is t=3 — refuting "that timer's deadline
equals min over all remaining bucket deadlines". -/
theorem C9_counterexample :
    (process_active_timed_switches c9ctrl 2 eff9).active_timed_switches ≠ [] ∧
    (process_active_timed_switches c9ctrl 2 eff9).timed_delay = some 5 ∧
    minKeys (process_active_timed_switches c9ctrl 2 eff9).active_timed_switches =
      some 3 ∧
    (5 : ℚ) ≠ 3 := by
  refine ⟨by decide, by decide, by decide, by decide⟩

/-- C9 (amended): at most one wake timer is ever outstanding, and after
`_add_timed_switch_handler` it sits at the minimum of all bucket deadlines.
After a drain pass, however, the final reschedule uses only the snapshot of
keys taken at drain start: whenever some snapshot key is not yet due, the
timer is set to the minimum non-due snapshot key — a pending inserted by a
callback during the pass with an earlier deadline does *not* get the wake
timer moved to its deadline (see the counterexample). -/
theorem C9_wake_timer_discipline (c : Controller) (now : Time) (t : Time)
    (h : TimedSwitchHandler) (eff : CB → List (Time × TimedSwitchHandler))
    (hwf : WFtimer c) (hnow : 0 ≤ now) :
    (WFtimer (add_timed_switch_handler c t h) ∧
     (add_timed_switch_handler c t h).outstanding.length ≤ 1 ∧
     (add_timed_switch_handler c t h).timed_delay =
       minKeys (add_timed_switch_handler c t h).active_timed_switches) ∧
    (WFtimer (process_active_timed_switches c now eff) ∧
     (process_active_timed_switches c now eff).outstanding.length ≤ 1 ∧
     ∀ m, ((c.active_timed_switches.map (fun p => p.1)).filter
         (fun k => !(k ≤ now))).min? = some m →
       (process_active_timed_switches c now eff).timed_delay = some m) := by
  have hadd := add_timed_timer c t h hwf
  have hr2 : (drainLoop now eff c none
      (c.active_timed_switches.map (fun p => p.1))).2 =
      ((c.active_timed_switches.map (fun p => p.1)).filter
        (fun k => !(k ≤ now))).min? := by
    rw [drainLoop_snd]
    have := neFold_min now hnow (c.active_timed_switches.map (fun p => p.1))
      none (by intro m hm; cases hm)
    rw [this]
    cases hX : ((c.active_timed_switches.map (fun p => p.1)).filter
      (fun k => !(k ≤ now))).min? <;> simp [combMin, hX]
  have hr1wf : WFtimer (drainLoop now eff c none
      (c.active_timed_switches.map (fun p => p.1))).1 :=
    drainLoop_wf now eff _ c none hwf
  have hdrwf : WFtimer (process_active_timed_switches c now eff) ∧
      (∀ m, ((c.active_timed_switches.map (fun p => p.1)).filter
          (fun k => !(k ≤ now))).min? = some m →
        (process_active_timed_switches c now eff).timed_delay = some m) := by
    unfold process_active_timed_switches
    cases h2 : (drainLoop now eff c none
        (c.active_timed_switches.map (fun p => p.1))).2 with
    | none =>
      constructor
      · simp only [h2]
        exact hr1wf
      · intro m hm
        rw [hr2] at h2
        rw [hm] at h2
        cases h2
    | some t0 =>
      have ht0 : ¬ t0 = 0 := by
        rw [hr2] at h2
        have hmem := List.min?_mem (fun a b => min_choice a b) h2
        have := (List.mem_filter.mp hmem).2
        intro h0
        rw [h0] at this
        simp at this
        exact absurd (lt_of_le_of_lt hnow this) (lt_irrefl 0)
      have hres := reschedule_wf (drainLoop now eff c none
        (c.active_timed_switches.map (fun p => p.1))).1 t0 hr1wf
      constructor
      · simp only [h2, if_neg ht0]
        exact hres.1
      · intro m hm
        have h2b := h2
        rw [hr2, hm] at h2b
        cases h2b
        simp only [h2, if_neg ht0]
        exact hres.2
  refine ⟨⟨hadd.1, outstanding_le_one _ hadd.1, hadd.2⟩,
    hdrwf.1, outstanding_le_one _ hdrwf.1, hdrwf.2⟩

/-- Witness for C9's amended theorem: inserting into the empty queue arms the
timer at the single deadline; draining `c9ctrl` at t=2 leaves the timer at
the minimum non-due snapshot key, t=5. -/
theorem C9_witness :
    (WFtimer (add_timed_switch_handler c9ctrl 7 c9nh) ∧
     (add_timed_switch_handler c9ctrl 7 c9nh).outstanding.length ≤ 1 ∧
     (add_timed_switch_handler c9ctrl 7 c9nh).timed_delay =
       minKeys (add_timed_switch_handler c9ctrl 7 c9nh).active_timed_switches) ∧
    (process_active_timed_switches c9ctrl 2 eff9).timed_delay = some 5 := by
  have h := C9_wake_timer_discipline c9ctrl 2 7 c9nh eff9
    (by unfold WFtimer; decide) (by norm_num)
  refine ⟨h.1, ?_⟩
  exact h.2.2.2 5 (by decide)

/-! ## Shape lemmas for handler removal -/

theorem lookupD_eq_none_mem {κ : Type} {α : Type} [BEq κ] [LawfulBEq κ]
    (d : List (κ × α)) (k : κ) (h : lookupD d k = none) :
    ∀ p ∈ d, p.1 ≠ k := by
  intro p hp
  unfold lookupD at h
  cases hf : d.find? (fun q => q.1 == k) with
  | some q => rw [hf] at h; cases h
  | none =>
    have := List.find?_eq_none.mp hf p hp
    simpa using this

theorem remove_shape (c : Controller) (n : String) (cb : CB) (st ms : ℕ) :
    regShape (remove_switch_handler c n cb st ms) c ∧
    queueShape (remove_switch_handler c n cb st ms) c := by
  unfold remove_switch_handler
  dsimp only
  cases hlook : lookupD c.registered_switches (n ++ "-" ++ toString st) with
  | none =>
    constructor
    · intro p hp
      exact ⟨p, hp, rfl, List.Sublist.refl _⟩
    · intro p hp
      obtain ⟨q, hq, hqe⟩ := List.mem_map.mp hp
      refine ⟨q, hq, by rw [← hqe], ?_⟩
      rw [← hqe]
      dsimp only
      exact pyDelLoop_sublist _ _
  | some bucket =>
    constructor
    · intro p hp
      rcases mem_setD _ _ _ p hp with heq | ⟨hmem, hne⟩
      · refine ⟨(n ++ "-" ++ toString st, bucket),
          lookupD_mem _ _ _ hlook, ?_, ?_⟩
        · rw [heq]
        · rw [heq]
          dsimp only
          exact pyRemoveLoop_sublist _ _
      · exact ⟨p, hmem, rfl, List.Sublist.refl _⟩
    · intro p hp
      obtain ⟨q, hq, hqe⟩ := List.mem_map.mp hp
      refine ⟨q, hq, by rw [← hqe], ?_⟩
      rw [← hqe]
      dsimp only
      exact pyDelLoop_sublist _ _

theorem regShape_trans {c3 c2 c : Controller} (h32 : regShape c3 c2)
    (h21 : regShape c2 c) : regShape c3 c := by
  intro p hp
  obtain ⟨q, hq, hk, hs⟩ := h32 p hp
  obtain ⟨q2, hq2, hk2, hs2⟩ := h21 q hq
  exact ⟨q2, hq2, hk.trans hk2, hs.trans hs2⟩

theorem queueShape_trans {c3 c2 c : Controller} (h32 : queueShape c3 c2)
    (h21 : queueShape c2 c) : queueShape c3 c := by
  intro p hp
  obtain ⟨q, hq, hk, hs⟩ := h32 p hp
  obtain ⟨q2, hq2, hk2, hs2⟩ := h21 q hq
  exact ⟨q2, hq2, hk.trans hk2, hs.trans hs2⟩

theorem regOk_of_shape {c2 c : Controller} {h : SwitchHandler}
    (hsh : regShape c2 c) (hok : regOk c h) : regOk c2 h := by
  intro p hp
  obtain ⟨q, hq, hk, hs⟩ := hsh p hp
  obtain ⟨h1, h2⟩ := hok q hq
  constructor
  · intro r hr hcb
    obtain ⟨hk2, hms⟩ := h1 r (hs.mem hr) hcb
    exact ⟨hk.trans hk2, hms⟩
  · exact le_trans (hs.countP_le _) h2

theorem queueOk_of_shape {c2 c : Controller} {h : SwitchHandler}
    (hsh : queueShape c2 c) (hok : queueOk c h) : queueOk c2 h := by
  intro p hp
  obtain ⟨q, hq, hk, hs⟩ := hsh p hp
  obtain ⟨h1, h2⟩ := hok q hq
  constructor
  · intro e he hcb
    exact h1 e (hs.mem he) hcb
  · exact le_trans (hs.countP_le _) h2

theorem not_cbInRegistry_of_shape {c2 c : Controller} {cb : CB}
    (hsh : regShape c2 c) (habs : ¬ cbInRegistry c cb) : ¬ cbInRegistry c2 cb := by
  intro hex
  obtain ⟨p, hp, r, hr, hcb⟩ := hex
  obtain ⟨q, hq, hk, hs⟩ := hsh p hp
  exact habs ⟨q, hq, r, hs.mem hr, hcb⟩

theorem not_cbInQueue_of_shape {c2 c : Controller} {cb : CB}
    (hsh : queueShape c2 c) (habs : ¬ cbInQueue c cb) : ¬ cbInQueue c2 cb := by
  intro hex
  obtain ⟨p, hp, e, he, hcb⟩ := hex
  obtain ⟨q, hq, hk, hs⟩ := hsh p hp
  exact habs ⟨q, hq, e, hs.mem he, hcb⟩

theorem remove_reg_eq (c : Controller) (n : String) (cb : CB) (st ms : ℕ) :
    (remove_switch_handler c n cb st ms).registered_switches =
      (match lookupD c.registered_switches (n ++ "-" ++ toString st) with
       | some bucket => setD c.registered_switches (n ++ "-" ++ toString st)
           (pyRemoveLoop (fun s => s.ms == ms && s.callback == cb) bucket)
       | none => c.registered_switches) := by
  unfold remove_switch_handler
  dsimp only
  cases hlook : lookupD c.registered_switches (n ++ "-" ++ toString st) <;> rfl

theorem remove_active_eq (c : Controller) (n : String) (cb : CB) (st ms : ℕ) :
    (remove_switch_handler c n cb st ms).active_timed_switches =
      c.active_timed_switches.map (fun p =>
        (p.1, pyDelLoop (fun e => e.switch_name == n && e.state == st &&
          e.ms == ms && e.callback == cb) p.2)) := by
  unfold remove_switch_handler
  dsimp only
  cases hlook : lookupD c.registered_switches (n ++ "-" ++ toString st) <;> rfl

theorem remove_clears_callback (c : Controller) (h : SwitchHandler)
    (hreg : regOk c h) (hq : queueOk c h) :
    ¬ cbInRegistry (remove_switch_handler_by_key c h) h.callback ∧
    ¬ cbInQueue (remove_switch_handler_by_key c h) h.callback := by
  unfold remove_switch_handler_by_key cbInRegistry cbInQueue
  constructor
  · rintro ⟨p, hp, r, hr, hcb⟩
    rw [remove_reg_eq] at hp
    revert hp
    cases hlook : lookupD c.registered_switches
        (h.switch_name ++ "-" ++ toString h.state) with
    | none =>
      intro hp
      have hkey := (hreg p hp).1 r hr hcb
      exact lookupD_eq_none_mem _ _ hlook p hp hkey.1
    | some bucket =>
      intro hp
      rcases mem_setD _ _ _ p hp with heq | ⟨hmem, hne⟩
      · have hrb : r ∈ pyRemoveLoop
            (fun s => s.ms == h.ms && s.callback == h.callback) bucket := by
          rw [heq] at hr
          exact hr
        have hrb2 : r ∈ bucket := (pyRemoveLoop_sublist _ _).mem hrb
        have hbmem : (h.switch_name ++ "-" ++ toString h.state, bucket) ∈
            c.registered_switches := lookupD_mem _ _ _ hlook
        have hms : r.ms = h.ms := ((hreg _ hbmem).1 r hrb2 hcb).2
        have hpr : (fun s : RegisteredSwitch =>
            s.ms == h.ms && s.callback == h.callback) r = true := by
          simp [hms, hcb]
        have hcount : bucket.countP
            (fun s => s.ms == h.ms && s.callback == h.callback) ≤ 1 :=
          (hreg _ hbmem).2
        have hzero := pyRemoveLoop_countP_zero
          (fun s : RegisteredSwitch => s.ms == h.ms && s.callback == h.callback)
          bucket hcount
        have hpos : 0 < (pyRemoveLoop
            (fun s : RegisteredSwitch => s.ms == h.ms && s.callback == h.callback)
            bucket).countP
            (fun s => s.ms == h.ms && s.callback == h.callback) :=
          List.countP_pos_iff.mpr ⟨r, hrb, hpr⟩
        omega
      · exact hne ((hreg p hmem).1 r hr hcb).1
  · rintro ⟨p, hp, e, he, hcb⟩
    rw [remove_active_eq] at hp
    obtain ⟨q, hqmem, hqe⟩ := List.mem_map.mp hp
    have heb : e ∈ pyDelLoop (fun e => e.switch_name == h.switch_name &&
        e.state == h.state && e.ms == h.ms && e.callback == h.callback) q.2 := by
      rw [← hqe] at he
      exact he
    have heb2 : e ∈ q.2 := (pyDelLoop_sublist _ _).mem heb
    obtain ⟨hsn, hst, hms⟩ := (hq q hqmem).1 e heb2 hcb
    have hpre : (fun e : TimedSwitchHandler => e.switch_name == h.switch_name &&
        e.state == h.state && e.ms == h.ms && e.callback == h.callback) e
        = true := by
      simp [hsn, hst, hms, hcb]
    have hcount : q.2.countP (fun e => e.switch_name == h.switch_name &&
        e.state == h.state && e.ms == h.ms && e.callback == h.callback) ≤ 1 :=
      (hq q hqmem).2
    have hzero := pyDelLoop_countP_zero
      (fun e : TimedSwitchHandler => e.switch_name == h.switch_name &&
        e.state == h.state && e.ms == h.ms && e.callback == h.callback) q.2 hcount
    have hpos : 0 < (pyDelLoop (fun e : TimedSwitchHandler =>
        e.switch_name == h.switch_name && e.state == h.state &&
        e.ms == h.ms && e.callback == h.callback) q.2).countP
        (fun e => e.switch_name == h.switch_name && e.state == h.state &&
          e.ms == h.ms && e.callback == h.callback) :=
      List.countP_pos_iff.mpr ⟨e, heb, hpre⟩
    omega

theorem future_done_shape :
    ∀ (hs : List SwitchHandler) (c : Controller),
      regShape (future_done hs c) c ∧ queueShape (future_done hs c) c := by
  intro hs
  induction hs with
  | nil =>
    intro c
    constructor
    · intro p hp; exact ⟨p, hp, rfl, List.Sublist.refl _⟩
    · intro p hp; exact ⟨p, hp, rfl, List.Sublist.refl _⟩
  | cons hd rest ih =>
    intro c
    have hstep : future_done (hd :: rest) c =
        future_done rest (remove_switch_handler_by_key c hd) := rfl
    rw [hstep]
    have h1 := ih (remove_switch_handler_by_key c hd)
    have h2 := remove_shape c hd.switch_name hd.callback hd.state hd.ms
    exact ⟨regShape_trans h1.1 h2.1, queueShape_trans h1.2 h2.2⟩

theorem future_done_clears :
    ∀ (hs : List SwitchHandler) (c : Controller),
      (∀ h ∈ hs, regOk c h ∧ queueOk c h) →
      ∀ h ∈ hs, ¬ cbInRegistry (future_done hs c) h.callback ∧
        ¬ cbInQueue (future_done hs c) h.callback := by
  intro hs
  induction hs with
  | nil => intro c hok h hmem; cases hmem
  | cons hd rest ih =>
    intro c hok h hmem
    have hstep : future_done (hd :: rest) c =
        future_done rest (remove_switch_handler_by_key c hd) := rfl
    rw [hstep]
    have hshape := remove_shape c hd.switch_name hd.callback hd.state hd.ms
    rcases List.mem_cons.mp hmem with rfl | hrest
    · have hclear := remove_clears_callback c h
        (hok h (List.mem_cons_self _ _)).1 (hok h (List.mem_cons_self _ _)).2
      have hfshape := future_done_shape rest (remove_switch_handler_by_key c h)
      exact ⟨not_cbInRegistry_of_shape hfshape.1 hclear.1,
        not_cbInQueue_of_shape hfshape.2 hclear.2⟩
    · refine ih (remove_switch_handler_by_key c hd) ?_ h hrest
      intro h2 hm2
      exact ⟨regOk_of_shape hshape.1 (hok h2 (List.mem_cons_of_mem _ hm2)).1,
        queueOk_of_shape hshape.2 (hok h2 (List.mem_cons_of_mem _ hm2)).2⟩

/-! ## Lemmas for the wait primitive -/

theorem firstSatisfied_spec (c : Controller) (now : Time) (state ms : ℕ) :
    ∀ (names : List String) (n : String),
      firstSatisfied c now state ms names = some (some n) →
      ∃ pre post, names = pre ++ n :: post ∧
        is_state c now n state ms = some true ∧
        ∀ m ∈ pre, is_state c now m state ms = some false := by
  intro names
  induction names with
  | nil => intro n h; simp [firstSatisfied] at h
  | cons x xs ih =>
    intro n h
    unfold firstSatisfied at h
    cases hx : is_state c now x state ms with
    | none => rw [hx] at h; cases h
    | some b =>
      rw [hx] at h
      cases b with
      | true =>
        have hn : x = n := by
          have := h
          simp at this
          exact this
        subst hn
        exact ⟨[], xs, rfl, hx, by intro m hm; cases hm⟩
      | false =>
        obtain ⟨pre, post, he, htrue, hfalse⟩ := ih n h
        refine ⟨x :: pre, post, by simp [he], htrue, ?_⟩
        intro m hm
        rcases List.mem_cons.mp hm with rfl | hm2
        · exact hx
        · exact hfalse m hm2

theorem add_switch_handler_key (c : Controller) (now : Time) (n : String)
    (cb : CB) (st ms : ℕ) (c2 : Controller) (hk : SwitchHandler)
    (h : add_switch_handler c now n cb st ms = some (c2, hk)) :
    hk = ⟨n, cb, st, ms⟩ := by
  unfold add_switch_handler at h
  dsimp only at h
  cases hlook : lookupD c.registered_switches (n ++ "-" ++ toString st) with
  | none => rw [hlook] at h; cases h
  | some bucket =>
    rw [hlook] at h
    dsimp only at h
    by_cases hms : ms ≠ 0
    · rw [if_pos hms] at h
      cases hsw : lookupD c.switches n with
      | none => rw [hsw] at h; cases h
      | some ss =>
        rw [hsw] at h
        dsimp only at h
        split at h
        · split at h
          · simp only [Option.some.injEq, Prod.mk.injEq] at h
            exact h.2.symm
          · simp only [Option.some.injEq, Prod.mk.injEq] at h
            exact h.2.symm
        · simp only [Option.some.injEq, Prod.mk.injEq] at h
          exact h.2.symm
    · rw [if_neg hms] at h
      simp only [Option.some.injEq, Prod.mk.injEq] at h
      exact h.2.symm

theorem registerAll_handlers (now : Time) (st ms : ℕ) :
    ∀ (l : List (String × CB)) (c c2 : Controller) (hs : List SwitchHandler),
      registerAll now st ms c l = some (c2, hs) →
      hs = l.map (fun p => ⟨p.1, p.2, st, ms⟩) := by
  intro l
  induction l with
  | nil =>
    intro c c2 hs h
    simp [registerAll] at h
    rw [h.2]
    rfl
  | cons p rest ih =>
    intro c c2 hs h
    unfold registerAll at h
    cases hadd : add_switch_handler c now p.1 p.2 st ms with
    | none =>
      rw [hadd] at h
      dsimp only at h
      cases h
    | some ch =>
      rw [hadd] at h
      dsimp only at h
      cases hrest : registerAll now st ms ch.1 rest with
      | none =>
        rw [hrest] at h
        dsimp only at h
        cases h
      | some chs =>
        rw [hrest] at h
        dsimp only at h
        simp only [Option.some.injEq, Prod.mk.injEq] at h
        have hkey : ch.2 = ⟨p.1, p.2, st, ms⟩ :=
          add_switch_handler_key c now p.1 p.2 st ms ch.1 ch.2 (by rw [hadd])
        rw [← h.2, hkey, List.map_cons]
        have := ih ch.1 chs.1 chs.2 (by rw [hrest])
        rw [this]

theorem add_switch_handler_reg (c : Controller) (now : Time) (n : String)
    (cb : CB) (st ms : ℕ) (c2 : Controller) (hk : SwitchHandler)
    (h : add_switch_handler c now n cb st ms = some (c2, hk)) :
    ∃ bucket, lookupD c.registered_switches (n ++ "-" ++ toString st) =
        some bucket ∧
      c2.registered_switches = setD c.registered_switches
        (n ++ "-" ++ toString st) (bucket ++ [⟨ms, cb⟩]) := by
  unfold add_switch_handler at h
  dsimp only at h
  cases hlook : lookupD c.registered_switches (n ++ "-" ++ toString st) with
  | none => rw [hlook] at h; cases h
  | some bucket =>
    rw [hlook] at h
    dsimp only at h
    refine ⟨bucket, rfl, ?_⟩
    by_cases hms : ms ≠ 0
    · rw [if_pos hms] at h
      cases hsw : lookupD c.switches n with
      | none => rw [hsw] at h; cases h
      | some ss =>
        rw [hsw] at h
        dsimp only at h
        split at h
        · split at h
          · simp only [Option.some.injEq, Prod.mk.injEq] at h
            rw [← h.1]
            exact (add_timed_components _ _ _).1
          · simp only [Option.some.injEq, Prod.mk.injEq] at h
            rw [← h.1]
        · simp only [Option.some.injEq, Prod.mk.injEq] at h
          rw [← h.1]
    · rw [if_neg hms] at h
      simp only [Option.some.injEq, Prod.mk.injEq] at h
      rw [← h.1]

theorem add_switch_handler_reg_mem (c : Controller) (now : Time) (n : String)
    (cb : CB) (st ms : ℕ) (c2 : Controller) (hk : SwitchHandler)
    (h : add_switch_handler c now n cb st ms = some (c2, hk)) :
    (∀ k b, lookupD c.registered_switches k = some b →
      ∃ b2, lookupD c2.registered_switches k = some b2 ∧ ∀ r ∈ b, r ∈ b2) ∧
    (∃ b2, lookupD c2.registered_switches (n ++ "-" ++ toString st) = some b2 ∧
      (⟨ms, cb⟩ : RegisteredSwitch) ∈ b2) := by
  obtain ⟨bucket, hlook, hreg⟩ := add_switch_handler_reg c now n cb st ms c2 hk h
  constructor
  · intro k b hb
    by_cases hkk : k = n ++ "-" ++ toString st
    · subst hkk
      have hbe : b = bucket := by
        rw [hb] at hlook
        exact Option.some.injEq _ _ ▸ hlook
      refine ⟨bucket ++ [⟨ms, cb⟩], ?_, ?_⟩
      · rw [hreg, lookupD_setD_self]
      · intro r hr
        rw [hbe] at hr
        exact List.mem_append_left _ hr
    · refine ⟨b, ?_, fun r hr => hr⟩
      rw [hreg, lookupD_setD_ne _ _ _ _ hkk]
      exact hb
  · refine ⟨bucket ++ [⟨ms, cb⟩], ?_, ?_⟩
    · rw [hreg, lookupD_setD_self]
    · exact List.mem_append_right _ (List.mem_singleton_self _)

theorem registerAll_reg_mem (now : Time) (st ms : ℕ) :
    ∀ (l : List (String × CB)) (c c2 : Controller) (hs : List SwitchHandler),
      registerAll now st ms c l = some (c2, hs) →
      (∀ k b, lookupD c.registered_switches k = some b →
        ∃ b2, lookupD c2.registered_switches k = some b2 ∧ ∀ r ∈ b, r ∈ b2) ∧
      (∀ p ∈ l, ∃ b2,
        lookupD c2.registered_switches (p.1 ++ "-" ++ toString st) = some b2 ∧
        (⟨ms, p.2⟩ : RegisteredSwitch) ∈ b2) := by
  intro l
  induction l with
  | nil =>
    intro c c2 hs h
    simp [registerAll] at h
    constructor
    · intro k b hb
      rw [← h.1]
      exact ⟨b, hb, fun r hr => hr⟩
    · intro p hp
      cases hp
  | cons p rest ih =>
    intro c c2 hs h
    unfold registerAll at h
    cases hadd : add_switch_handler c now p.1 p.2 st ms with
    | none =>
      rw [hadd] at h
      dsimp only at h
      cases h
    | some ch =>
      rw [hadd] at h
      dsimp only at h
      cases hrest : registerAll now st ms ch.1 rest with
      | none =>
        rw [hrest] at h
        dsimp only at h
        cases h
      | some chs =>
        rw [hrest] at h
        dsimp only at h
        simp only [Option.some.injEq, Prod.mk.injEq] at h
        have haddm := add_switch_handler_reg_mem c now p.1 p.2 st ms ch.1 ch.2
          (by rw [hadd])
        have hih := ih ch.1 chs.1 chs.2 (by rw [hrest])
        have hc2 : chs.1 = c2 := h.1
        constructor
        · intro k b hb
          obtain ⟨b1, hb1, hsub1⟩ := haddm.1 k b hb
          obtain ⟨b2, hb2, hsub2⟩ := hih.1 k b1 hb1
          rw [hc2] at hb2
          exact ⟨b2, hb2, fun r hr => hsub2 r (hsub1 r hr)⟩
        · intro q hq
          rcases List.mem_cons.mp hq with rfl | hq2
          · obtain ⟨b1, hb1, hmem1⟩ := haddm.2
            obtain ⟨b2, hb2, hsub2⟩ := hih.1 _ b1 hb1
            rw [hc2] at hb2
            exact ⟨b2, hb2, hsub2 _ hmem1⟩
          · obtain ⟨b2, hb2, hmem2⟩ := hih.2 q hq2
            rw [hc2] at hb2
            exact ⟨b2, hb2, hmem2⟩

/-- C8: `wait_for_any_switch` — (i) with `only_on_change = false` and some
listed switch already satisfying `is_state`, the future is resolved
immediately with the first such switch in list order, no transient handlers
are registered and the controller is untouched; (ii) on the registration path
one transient handler per listed switch is registered (the returned keys are
exactly one per `(name, callback)` pair and each record is in its bucket);
(iii) `_wait_handler` never resolves a done future a second time; (iv)
completing the future removes every transient handler it registered from both
the registry and the timed queue — under the freshness conditions that the
per-switch `partial` callbacks occur only in their own handler's bucket, at
most once per bucket. -/
theorem C8_wait_for_any (c : Controller) (now : Time) (names : List String)
    (state ms : ℕ) (cbs : List CB) :
    (∀ n, firstSatisfied c now state ms names = some (some n) →
      (∃ pre post, names = pre ++ n :: post ∧
        is_state c now n state ms = some true ∧
        ∀ m ∈ pre, is_state c now m state ms = some false) ∧
      wait_for_any_switch c now names state false ms cbs =
        some (c, ⟨some ⟨n, state, ms⟩, true⟩, [])) ∧
    (∀ (only_on_change : Bool) (c2 : Controller) (f : Future)
        (hs : List SwitchHandler),
      wait_for_any_switch c now names state only_on_change ms cbs =
        some (c2, f, hs) → f.done = false →
      hs = (names.zip cbs).map (fun p => ⟨p.1, p.2, state, ms⟩) ∧
      ∀ p ∈ names.zip cbs, ∃ b,
        lookupD c2.registered_switches (p.1 ++ "-" ++ toString state) = some b ∧
        (⟨ms, p.2⟩ : RegisteredSwitch) ∈ b) ∧
    (∀ (f : Future) (v : WaitResult),
      (f.done = true → wait_handler f v = f) ∧
      (f.done = false → wait_handler f v = ⟨some v, true⟩)) ∧
    (∀ (c3 : Controller) (hs : List SwitchHandler),
      (∀ h ∈ hs, regOk c3 h ∧ queueOk c3 h) →
      ∀ h ∈ hs, ¬ cbInRegistry (future_done hs c3) h.callback ∧
        ¬ cbInQueue (future_done hs c3) h.callback) := by
  refine ⟨?_, ?_, ?_, ?_⟩
  · intro n hfs
    refine ⟨firstSatisfied_spec c now state ms names n hfs, ?_⟩
    unfold wait_for_any_switch
    rw [hfs]
    simp only [Bool.not_false]
    rw [if_pos trivial]
  · intro ooc c2 f hs h hdone
    have hregpath : ∃ chs, registerAll now state ms c (names.zip cbs) =
        some chs ∧ c2 = chs.1 ∧ hs = chs.2 := by
      unfold wait_for_any_switch at h
      cases ooc with
      | true =>
        simp only [Bool.not_true, Bool.false_eq_true, if_false] at h
        cases hra : registerAll now state ms c (names.zip cbs) with
        | none => rw [hra] at h; cases h
        | some chs =>
          rw [hra] at h
          simp only [Option.some.injEq, Prod.mk.injEq] at h
          exact ⟨chs, rfl, h.1.symm, h.2.2.symm⟩
      | false =>
        simp only [Bool.not_false] at h
        rw [if_pos trivial] at h
        cases hfs : firstSatisfied c now state ms names with
        | none => rw [hfs] at h; cases h
        | some o =>
          rw [hfs] at h
          cases o with
          | some n =>
            simp only [Option.some.injEq, Prod.mk.injEq] at h
            rw [← h.2.1] at hdone
            cases hdone
          | none =>
            cases hra : registerAll now state ms c (names.zip cbs) with
            | none => rw [hra] at h; cases h
            | some chs =>
              rw [hra] at h
              simp only [Option.some.injEq, Prod.mk.injEq] at h
              exact ⟨chs, rfl, h.1.symm, h.2.2.symm⟩
    obtain ⟨chs, hra, hc2, hhs⟩ := hregpath
    constructor
    · rw [hhs]
      exact registerAll_handlers now state ms (names.zip cbs) c chs.1 chs.2
        (by rw [hra])
    · intro p hp
      have := (registerAll_reg_mem now state ms (names.zip cbs) c chs.1 chs.2
        (by rw [hra])).2 p hp
      rw [hc2]
      exact this
  · intro f v
    constructor
    · intro hd
      unfold wait_handler
      rw [if_pos hd]
    · intro hd
      unfold wait_handler
      rw [if_neg (by rw [hd]; exact Bool.false_ne_true)]
  · intro c3 hs hok h hmem
    exact future_done_clears hs c3 hok h hmem

/-- Witness for C8 (spec scenario 6 shape): waiting on `["a", "b"]` with `b`
already active resolves immediately with `b` and registers nothing; with
`only_on_change` the call registers one handler per switch; a done future is
not resolved again; completing the future removes both transient handlers. -/
theorem C8_witness :
    wait_for_any_switch w8ctrl 0 ["a", "b"] 1 false 0 [101, 102] =
      some (w8ctrl, ⟨some ⟨"b", 1, 0⟩, true⟩, []) ∧
    w8hs = (["a", "b"].zip [101, 102]).map (fun p => ⟨p.1, p.2, 1, 0⟩) ∧
    wait_handler ⟨some ⟨"b", 1, 0⟩, true⟩ ⟨"a", 1, 0⟩ =
      ⟨some ⟨"b", 1, 0⟩, true⟩ ∧
    (¬ cbInRegistry (future_done w8hs w8c2) 101 ∧
     ¬ cbInQueue (future_done w8hs w8c2) 101) := by
  have h := C8_wait_for_any w8ctrl 0 ["a", "b"] 1 0 [101, 102]
  have hlooka : lookupD w8ctrl.switches "a" = some ⟨0, 0⟩ := by decide
  have hlookb : lookupD w8ctrl.switches "b" = some ⟨1, 0⟩ := by decide
  have hmsa : ms_since_change w8ctrl 0 "a" = some 0 := by
    unfold ms_since_change
    rw [hlooka]
    norm_num [pythonRound]
  have hmsb : ms_since_change w8ctrl 0 "b" = some 0 := by
    unfold ms_since_change
    rw [hlookb]
    norm_num [pythonRound]
  have hisa : is_state w8ctrl 0 "a" 1 0 = some false := by
    unfold is_state
    rw [hlooka, hmsa]
    decide
  have hisb : is_state w8ctrl 0 "b" 1 0 = some true := by
    unfold is_state
    rw [hlookb, hmsb]
    decide
  have hfs : firstSatisfied w8ctrl 0 1 0 ["a", "b"] = some (some "b") := by
    unfold firstSatisfied
    rw [hisa]
    unfold firstSatisfied
    rw [hisb]
  have hreg : wait_for_any_switch w8ctrl 0 ["a", "b"] 1 true 0 [101, 102] =
      some (w8c2, ⟨none, false⟩, w8hs) := by decide
  refine ⟨(h.1 "b" hfs).2, ?_, ?_, ?_⟩
  · exact (h.2.1 true w8c2 ⟨none, false⟩ w8hs hreg rfl).1
  · exact (h.2.2.1 ⟨some ⟨"b", 1, 0⟩, true⟩ ⟨"a", 1, 0⟩).1 rfl
  · refine h.2.2.2 w8c2 w8hs ?_ ⟨"a", 101, 1, 0⟩ (by decide)
    intro h2 hm2
    constructor
    · unfold regOk
      revert h2 hm2
      decide
    · unfold queueOk
      revert h2 hm2
      decide
